import Mathlib

set_option maxRecDepth 8192

/-!
Verification development for the SQL-pancake database manager
(`db_manager.py`).  The Python source drives a SQLite store through a
`DatabaseManager` class; here the store, the relevant fragment of the SQL
engine (the statement forms the manager and its scripts use) and every
method of the class that the specification's claims touch are embedded as
executable Lean definitions, and the claims are settled as theorems below.

Texts (Python strings) are modelled as `List Char` so that splitting,
trimming and parsing can be reasoned about by structural induction.
-/

namespace SqlPancake

abbrev Text := List Char

/-- Does `p` occur as a leading run of `t`? (Python `str.startswith`). -/
def isStart : Text → Text → Bool
  | [], _ => true
  | _ :: _, [] => false
  | p :: ps, c :: cs => p = c && isStart ps cs

/-- Drop a leading run `p` from a text (used after an `isStart` check). -/
def afterStart (p t : Text) : Text := t.drop p.length

/-- Python `str.lstrip()`. -/
def wsTrimLeft (t : Text) : Text := t.dropWhile Char.isWhitespace

/-- Python `str.strip()`: whitespace removed from both ends. -/
def wsTrim (t : Text) : Text :=
  ((wsTrimLeft t).reverse.dropWhile Char.isWhitespace).reverse

/-- Python `str.lower()` (ASCII view, enough for the `"yes"` comparison). -/
def pyLower (t : Text) : Text := t.map Char.toLower

/-- Prepend a character onto the first piece of a split result. -/
def consFirst (c : Char) : List Text → List Text
  | [] => [[c]]
  | h :: t => (c :: h) :: t

/-- Python `str.split(sep)` for a one-character separator: every occurrence
splits, empty pieces are kept.  Always returns at least one piece. -/
def splitChar (sep : Char) : Text → List Text
  | [] => [[]]
  | c :: r =>
    if c = sep then [] :: splitChar sep r
    else consFirst c (splitChar sep r)

/-- Split on a separator character, but not inside a single-quoted SQL
string literal (the SQL lexer's view of `;` and `,`).  The boolean is the
in-quote state. -/
def splitTL (sep : Char) : Bool → Text → List Text
  | _, [] => [[]]
  | inQ, c :: r =>
    if c = sep && !inQ then [] :: splitTL sep false r
    else consFirst c (splitTL sep (if c = '\'' then !inQ else inQ) r)

/-- Quote state after scanning a text starting from state `inQ`. -/
def scanQ : Text → Bool → Bool
  | [], inQ => inQ
  | c :: r, inQ => scanQ r (if c = '\'' then !inQ else inQ)

/-- No occurrence of `sep` outside quotes while scanning from state `inQ`. -/
def noTop (sep : Char) : Text → Bool → Bool
  | [], _ => true
  | c :: r, inQ =>
    if c = sep && !inQ then false
    else noTop sep r (if c = '\'' then !inQ else inQ)

/-- A chunk the top-level splitter passes through unsplit: it contains no
unquoted separator and ends outside a quote. -/
def okChunk (sep : Char) (t : Text) : Bool :=
  noTop sep t false && !(scanQ t false)

/-- Drop one source line: everything up to and including the next newline. -/
def dropLine : Text → Text
  | [] => []
  | c :: r => if c = '\n' then r else dropLine r

/-- One pass of leading-trivia removal, fuelled (the fuel `t.length` always
suffices since each comment line removed is nonempty). -/
def stripLeadFuel : Nat → Text → Text
  | 0, t => wsTrimLeft t
  | Nat.succ n, t =>
    let t1 := wsTrimLeft t
    if isStart "--".toList t1 then stripLeadFuel n (dropLine (t1.drop 2)) else t1

/-- Strip leading whitespace and leading `--` comment lines, as the SQL
lexer does before the first token of a statement. -/
def stripLead (t : Text) : Text := stripLeadFuel t.length t

/-- Decimal digit to character. -/
def digitToChar (d : Nat) : Char :=
  match d with
  | 0 => '0' | 1 => '1' | 2 => '2' | 3 => '3' | 4 => '4'
  | 5 => '5' | 6 => '6' | 7 => '7' | 8 => '8' | _ => '9'

/-- Character to decimal digit. -/
def charToDigit (c : Char) : Option Nat :=
  if 48 ≤ c.toNat ∧ c.toNat ≤ 57 then some (c.toNat - 48) else none

/-- Decimal digits of a natural number, most significant first. -/
def natDigits (n : Nat) : Text :=
  if _h : n < 10 then [digitToChar n]
  else natDigits (n / 10) ++ [digitToChar (n % 10)]
termination_by n
decreasing_by
  exact Nat.div_lt_self (by omega) (by omega)

/-- Textual form of an integer value. -/
def intText (i : Int) : Text :=
  if i < 0 then '-' :: natDigits i.natAbs else natDigits i.natAbs

/-- Left fold of decimal digits onto an accumulator. -/
def foldDigits : Nat → Text → Option Nat
  | acc, [] => some acc
  | acc, c :: r =>
    match charToDigit c with
    | none => none
    | some d => foldDigits (acc * 10 + d) r

/-- Parse a nonempty run of decimal digits. -/
def parseNat : Text → Option Nat
  | [] => none
  | t => foldDigits 0 t

/-- Parse an optionally-signed decimal integer. -/
def parseIntText : Text → Option Int
  | [] => none
  | c :: r =>
    if c = '-' then (parseNat r).map (fun n => -(Int.ofNat n))
    else (parseNat (c :: r)).map (fun n => Int.ofNat n)

/-- ASCII letter, digit or underscore (the identifier characters the
embedded statement grammar accepts; a conservative subset of SQLite's). -/
def isIdentChar (c : Char) : Bool :=
  (97 ≤ c.toNat && c.toNat ≤ 122) || (65 ≤ c.toNat && c.toNat ≤ 90) ||
    (48 ≤ c.toNat && c.toNat ≤ 57) || c = '_'

/-- Identifier head character: as above but not a digit. -/
def isIdentFirst (c : Char) : Bool :=
  (97 ≤ c.toNat && c.toNat ≤ 122) || (65 ≤ c.toNat && c.toNat ≤ 90) || c = '_'

/-- SQLite's keywords: the engine refuses a bare (unquoted) identifier
spelling one of them, case-insensitively, in a name position. -/
def sqlKeywords : List Text :=
  (["abort", "action", "add", "after", "all", "alter", "always", "analyze",
    "and", "as", "asc", "attach", "autoincrement", "before", "begin",
    "between", "by", "cascade", "case", "cast", "check", "collate", "column",
    "commit", "conflict", "constraint", "create", "cross", "current",
    "current_date", "current_time", "current_timestamp", "database",
    "default", "deferrable", "deferred", "delete", "desc", "detach",
    "distinct", "do", "drop", "each", "else", "end", "escape", "except",
    "exclude", "exclusive", "exists", "explain", "fail", "filter", "first",
    "following", "for", "foreign", "from", "full", "generated", "glob",
    "group", "groups", "having", "if", "ignore", "immediate", "in", "index",
    "indexed", "initially", "inner", "insert", "instead", "intersect",
    "into", "is", "isnull", "join", "key", "last", "left", "like", "limit",
    "match", "materialized", "natural", "no", "not", "nothing", "notnull",
    "null", "nulls", "of", "offset", "on", "or", "order", "others", "outer",
    "over", "partition", "plan", "pragma", "preceding", "primary", "query",
    "raise", "range", "recursive", "references", "regexp", "reindex",
    "release", "rename", "replace", "restrict", "returning", "right",
    "rollback", "row", "rows", "savepoint", "select", "set", "table", "temp",
    "temporary", "then", "ties", "to", "transaction", "trigger", "unbounded",
    "union", "unique", "update", "using", "vacuum", "values", "view",
    "virtual", "when", "where", "window", "with", "without"] :
    List String).map String.toList

/-- A nonempty bare identifier the engine accepts in a name position:
identifier-shaped and not a keyword. -/
def validIdent (t : Text) : Bool :=
  match t with
  | [] => false
  | c :: _ => (isIdentFirst c && t.all isIdentChar) &&
      !(sqlKeywords.contains (pyLower t))

/-- Scalar values stored in a table cell (NULL, INTEGER, TEXT; the claims
exercise no REAL/BLOB values). -/
inductive SqlValue
  | null
  | int (i : Int)
  | text (t : Text)
deriving DecidableEq, Repr

/-- A literal value or a positional `?` placeholder inside a statement. -/
inductive SqlParam
  | lit (v : SqlValue)
  | hole
deriving DecidableEq, Repr

/-- The statement forms of the embedded SQL fragment: exactly the forms the
manager itself issues plus the script statements the claims quantify over. -/
inductive Stmt
  | createTable (name : Text) (cols : List Text)
  | insertInto (name : Text) (vals : List SqlParam)
  | dropTable (name : Text)
  | selectAll (name : Text)
  | selectMaster
  | pragmaTableInfo (name : Text)
  | pragmaForeignKeys
  | beginTx
  | commitTx
deriving DecidableEq, Repr

/-- A table: ordered column names and rows in insertion order. -/
structure Table where
  cols : List Text
  rows : List (List SqlValue)
deriving DecidableEq, Repr

/-- The store: tables in creation order, keyed by name. -/
abbrev Store := List (Text × Table)

/-- A result row: ordered (column name, value) pairs (`sqlite3.Row`). -/
abbrev Row := List (Text × SqlValue)

/-- Escape a text value for a SQL string literal: every quote doubled. -/
def escapeQuotes : Text → Text
  | [] => []
  | c :: r => if c = '\'' then '\'' :: '\'' :: escapeQuotes r else c :: escapeQuotes r

/-- Worker for `unescapeQuotes`; the flag records a pending quote that must
be matched by a second one. -/
def unescapeGo : Bool → Text → Option Text
  | false, [] => some []
  | true, [] => none
  | false, c :: r =>
    if c = '\'' then unescapeGo true r
    else (unescapeGo false r).map (fun u => c :: u)
  | true, c :: r =>
    if c = '\'' then (unescapeGo false r).map (fun u => '\'' :: u) else none

/-- Undo `escapeQuotes`; fails on a lone quote. -/
def unescapeQuotes (t : Text) : Option Text := unescapeGo false t

/-- Print one SQL literal value. -/
def printValue : SqlValue → Text
  | .null => "NULL".toList
  | .int i => intText i
  | .text s => '\'' :: (escapeQuotes s ++ ['\''])

/-- Print a value-or-placeholder. -/
def printParam : SqlParam → Text
  | .lit v => printValue v
  | .hole => ['?']

/-- Join texts with a one-character separator. -/
def intercalateText (sep : Char) : List Text → Text
  | [] => []
  | [x] => x
  | x :: r => x ++ sep :: intercalateText sep r

/-- The catalog query `get_tables` issues (db_manager.py line 144). -/
def masterQuery : String :=
  "SELECT name FROM sqlite_master WHERE type='table' ORDER BY name"

/-- Print a statement in the canonical form the parser reads back. -/
def printStmt : Stmt → Text
  | .createTable n cols => "CREATE TABLE ".toList ++ (n ++ '(' :: (intercalateText ',' cols ++ [')']))
  | .insertInto n ps =>
      "INSERT INTO ".toList ++ '"' :: (n ++ '"' :: (" VALUES(".toList ++ (intercalateText ',' (ps.map printParam) ++ [')'])))
  | .dropTable n => "DROP TABLE ".toList ++ n
  | .selectAll n => "SELECT * FROM ".toList ++ n
  | .selectMaster => masterQuery.toList
  | .pragmaTableInfo n => "PRAGMA table_info(".toList ++ n ++ [')']
  | .pragmaForeignKeys => "PRAGMA foreign_keys = ON".toList
  | .beginTx => "BEGIN TRANSACTION".toList
  | .commitTx => "COMMIT".toList

/-- Sequence a list of options. -/
def seqOpt : List (Option α) → Option (List α)
  | [] => some []
  | none :: _ => none
  | some a :: r => (seqOpt r).map (fun l => a :: l)

/-- Parse one literal-or-placeholder token. -/
def parseParam (t : Text) : Option SqlParam :=
  if t = ['?'] then some .hole
  else if t = "NULL".toList then some (.lit .null)
  else
    match t with
    | [] => none
    | c :: r =>
      if c = '\'' then
        if r.getLast? = some '\'' then
          match unescapeQuotes r.dropLast with
          | some s => some (.lit (.text s))
          | none => none
        else none
      else (parseIntText (c :: r)).map (fun i => .lit (.int i))

/-- Parse the column list of a CREATE TABLE. -/
def parseCols (inner : Text) : Option (List Text) :=
  if ((splitChar ',' inner).map wsTrim).all validIdent then
    some ((splitChar ',' inner).map wsTrim)
  else none

/-- Parse the tail of an INSERT after its table name. -/
def parseInsertTail (nm rest : Text) : Option Stmt :=
  if validIdent nm && isStart " VALUES(".toList rest then
    if (afterStart " VALUES(".toList rest).getLast? = some ')' then
      match seqOpt ((splitTL ',' false (afterStart " VALUES(".toList rest).dropLast).map parseParam) with
      | some ps => some (.insertInto nm ps)
      | none => none
    else none
  else none

/-- Parse the part of a CREATE TABLE after the keyword. -/
def parseCreate (r : Text) : Option Stmt :=
  match splitChar '(' r with
  | [n, rest] =>
    if rest.getLast? = some ')' then
      if validIdent (wsTrim n) then
        (parseCols rest.dropLast).map (.createTable (wsTrim n))
      else none
    else none
  | _ => none

/-- Parse the part of an INSERT after the keyword: a double-quoted or bare
table name, then the VALUES list. -/
def parseInsert (r : Text) : Option Stmt :=
  match r with
  | [] => none
  | c :: r1 =>
    if c = '"' then
      match r1.dropWhile (fun d => !(d = '"')) with
      | [] => none
      | d :: rest =>
        if d = '"' then parseInsertTail (r1.takeWhile (fun d => !(d = '"'))) rest
        else none
    else
      parseInsertTail ((c :: r1).takeWhile (fun d => !(d = ' ')))
        ((c :: r1).dropWhile (fun d => !(d = ' ')))

/-- Parse the part of a `PRAGMA table_info(` statement after the opening
parenthesis. -/
def parsePragmaTI (body : Text) : Option Stmt :=
  if body.getLast? = some ')' then
    if validIdent body.dropLast then some (.pragmaTableInfo body.dropLast) else none
  else none

/-- Parse one statement of the embedded fragment (input already trimmed and
comment-stripped). -/
def parseStmt (t : Text) : Option Stmt :=
  if isStart "CREATE TABLE ".toList t then
    parseCreate (afterStart "CREATE TABLE ".toList t)
  else if isStart "INSERT INTO ".toList t then
    parseInsert (afterStart "INSERT INTO ".toList t)
  else if t = masterQuery.toList then some .selectMaster
  else if isStart "SELECT * FROM ".toList t then
    if validIdent (wsTrim (afterStart "SELECT * FROM ".toList t)) then
      some (.selectAll (wsTrim (afterStart "SELECT * FROM ".toList t)))
    else none
  else if isStart "DROP TABLE ".toList t then
    if validIdent (wsTrim (afterStart "DROP TABLE ".toList t)) then
      some (.dropTable (wsTrim (afterStart "DROP TABLE ".toList t)))
    else none
  else if isStart "PRAGMA table_info(".toList t then
    parsePragmaTI (afterStart "PRAGMA table_info(".toList t)
  else if t = "PRAGMA foreign_keys = ON".toList then some .pragmaForeignKeys
  else if t = "BEGIN TRANSACTION".toList then some .beginTx
  else if t = "COMMIT".toList then some .commitTx
  else none

/-! The store engine: the fragment of SQLite's behaviour the manager and
the claims exercise. -/

/-- Look a table up by name. -/
def lookupTable (n : Text) : Store → Option Table
  | [] => none
  | (m, tb) :: r => if m = n then some tb else lookupTable n r

/-- Remove a table by name. -/
def removeTable (n : Text) : Store → Store
  | [] => []
  | (m, tb) :: r => if m = n then removeTable n r else (m, tb) :: removeTable n r

/-- Append a row to the named table. -/
def addRowTo (n : Text) (row : List SqlValue) : Store → Store
  | [] => []
  | (m, tb) :: r =>
    if m = n then (m, { tb with rows := tb.rows ++ [row] }) :: r
    else (m, tb) :: addRowTo n row r

/-- The table names in creation order. -/
def tableNames (s : Store) : List Text := s.map (fun p => p.1)

/-- Number of rows of the named table (0 when absent). -/
def rowCount (s : Store) (n : Text) : Nat :=
  match lookupTable n s with
  | none => 0
  | some tb => tb.rows.length

/-- Lexicographic order on texts by character code. -/
def textLe : Text → Text → Bool
  | [], _ => true
  | _ :: _, [] => false
  | a :: as, b :: bs =>
    if a.toNat < b.toNat then true
    else if b.toNat < a.toNat then false
    else textLe as bs

/-- The order on table names as a relation. -/
def nameLe (a b : Text) : Prop := textLe a b = true

instance : DecidableRel nameLe :=
  fun a b => inferInstanceAs (Decidable (textLe a b = true))

/-- The order on store entries: by table name. -/
def pairLe (p q : Text × Table) : Prop := textLe p.1 q.1 = true

instance : DecidableRel pairLe :=
  fun p q => inferInstanceAs (Decidable (textLe p.1 q.1 = true))

/-- Sort texts lexicographically (what `ORDER BY name` yields). -/
def sortTexts (l : List Text) : List Text := List.insertionSort nameLe l

/-- Sort a store by table name. -/
def sortByName (s : Store) : Store := List.insertionSort pairLe s

/-- Extract the literal values of a parameter list; `none` if a placeholder
is left unbound. -/
def litsOf : List SqlParam → Option (List SqlValue)
  | [] => some []
  | .lit v :: r => (litsOf r).map (fun l => v :: l)
  | .hole :: _ => none

/-- Number of `?` placeholders in a parameter list. -/
def countHoles : List SqlParam → Nat
  | [] => 0
  | .hole :: r => countHoles r + 1
  | .lit _ :: r => countHoles r

/-- Substitute bound parameter values positionally for the placeholders. -/
def bindParamList : List SqlParam → List SqlValue → List SqlParam
  | [], _ => []
  | .hole :: r, v :: vs => .lit v :: bindParamList r vs
  | .hole :: r, [] => .hole :: r
  | .lit w :: r, vs => .lit w :: bindParamList r vs

/-- Placeholders of a whole statement. -/
def stmtHoles : Stmt → Nat
  | .insertInto _ ps => countHoles ps
  | _ => 0

/-- Bind parameter values into a statement (placeholders only ever occur in
the value positions of the embedded fragment). -/
def bindStmt : Stmt → List SqlValue → Stmt
  | .insertInto n ps, vs => .insertInto n (bindParamList ps vs)
  | st, _ => st

/-- One `PRAGMA table_info` result row for a column. -/
def colDescRow (idx : Nat) (c : Text) : Row :=
  [("cid".toList, .int idx), ("name".toList, .text c)]

/-- Execute one statement against a store: the new store and the result
rows, or an engine error. -/
def execStmt (s : Store) : Stmt → Except String (Store × List Row)
  | .createTable n cols =>
    match lookupTable n s with
    | some _ => .error "table already exists"
    | none => .ok (s ++ [(n, { cols := cols, rows := [] })], [])
  | .insertInto n ps =>
    match litsOf ps with
    | none => .error "Incorrect number of bindings supplied"
    | some vs =>
      match lookupTable n s with
      | none => .error "no such table"
      | some tb =>
        if vs.length = tb.cols.length then .ok (addRowTo n vs s, [])
        else .error "table has different number of columns"
  | .dropTable n =>
    match lookupTable n s with
    | none => .error "no such table"
    | some _ => .ok (removeTable n s, [])
  | .selectAll n =>
    match lookupTable n s with
    | none => .error "no such table"
    | some tb => .ok (s, tb.rows.map (fun r => tb.cols.zip r))
  | .selectMaster =>
    .ok (s, (sortTexts (tableNames s)).map (fun n => [("name".toList, .text n)]))
  | .pragmaTableInfo n =>
    match lookupTable n s with
    | none => .ok (s, [])
    | some tb => .ok (s, tb.cols.enum.map (fun p => colDescRow p.1 p.2))
  | .pragmaForeignKeys => .ok (s, [])
  | .beginTx => .ok (s, [])
  | .commitTx => .ok (s, [])

/-- A live `sqlite3` connection: pending store, last committed store, the
foreign-key flag set at open, and whether `close()` has been called. -/
structure Conn where
  store : Store
  committed : Store
  fkEnabled : Bool
  closed : Bool
deriving DecidableEq, Repr

/-- `conn.commit()`. -/
def conn_commit (c : Conn) : Conn := { c with committed := c.store }

/-- A connection freshly opened on a store. -/
def freshConn (s : Store) : Conn :=
  { store := s, committed := s, fkEnabled := false, closed := false }

/-- `cursor.execute(query, params)`: refuses a closed connection, strips
leading trivia, parses one statement, checks the binding count, binds the
parameter values positionally (never into the text) and executes. -/
def cursor_execute (c : Conn) (query : Text) (ps : List SqlValue) :
    Except String (Conn × List Row) :=
  if c.closed then .error "Cannot operate on a closed database"
  else
    if stripLead (wsTrim query) = [] then .ok (c, [])
    else
      match parseStmt (stripLead (wsTrim query)) with
      | none => .error "syntax error"
      | some st =>
        if stmtHoles st = ps.length then
          match execStmt c.store (bindStmt st ps) with
          | .error e => .error e
          | .ok (s2, rows) => .ok ({ c with store := s2 }, rows)
        else .error "Incorrect number of bindings supplied"

/-- One statement of `conn.executescript`: empty/comment-only pieces are
skipped, unbound placeholders evaluate as NULL, success autocommits. -/
def runCandidate (c : Conn) (cand : Text) : Except String Conn :=
  if stripLead (wsTrim cand) = [] then .ok c
  else
    match parseStmt (stripLead (wsTrim cand)) with
    | none => .error "syntax error"
    | some st =>
      match execStmt c.store (bindStmt st (List.replicate (stmtHoles st) SqlValue.null)) with
      | .error e => .error e
      | .ok (s2, _) => .ok { c with store := s2, committed := s2 }

/-- Run script pieces in order, stopping at the first failure and keeping
the partial state (SQLite executes the prefix before the bad statement). -/
def runCandidates (c : Conn) : List Text → Conn × Option String
  | [] => (c, none)
  | cand :: r =>
    match runCandidate c cand with
    | .error e => (c, some e)
    | .ok c2 => runCandidates c2 r

/-- `conn.executescript(text)`: the whole text as one multi-statement unit,
split at statement-terminating (unquoted) semicolons. -/
def executescript (c : Conn) (text : Text) : Conn × Option String :=
  if c.closed then (c, some "Cannot operate on a closed database")
  else runCandidates c (splitTL ';' false text)

/-- The statements `conn.iterdump()` serializes: schema first, then data,
tables ordered by name, wrapped in a transaction. -/
def dumpStmts (s : Store) : List Stmt :=
  .beginTx ::
    ((sortByName s).flatMap
      (fun p => .createTable p.1 p.2.cols ::
        p.2.rows.map (fun r => .insertInto p.1 (r.map SqlParam.lit))) ++ [.commitTx])

/-- `conn.iterdump()`: one terminated SQL statement per line. -/
def iterdump (c : Conn) : List Text :=
  (dumpStmts c.store).map (fun st => printStmt st ++ [';'])

/-! The `DatabaseManager` class of db_manager.py, method by method.  Each
method returns a record holding the mutated `self`, its Python return
value, the exception it raised (if any; `none` means it returned normally)
and what it printed.  The interactive `input()` of `create_database` is
modelled by an explicit stdin stream, and the filesystem by an explicit
map from paths to database stores and to text-file contents. -/

/-- Python exception kinds the source can raise. -/
inductive PyErr
  | runtimeError (msg : String)
  | valueError (msg : String)
  | sqlError (msg : String)
  | ioError (msg : String)
deriving DecidableEq, Repr

/-- The manager object: `self.db_path` and `self.conn` (the cursor shares
the connection's state and needs no separate field). -/
structure DatabaseManager where
  db_path : Option String
  conn : Option Conn
deriving DecidableEq, Repr

/-- `DatabaseManager()`. -/
def initDBM : DatabaseManager := { db_path := none, conn := none }

/-- The filesystem: database files and plain-text script files. -/
structure FS where
  dbs : List (String × Store)
  texts : List (String × Text)
deriving DecidableEq, Repr

/-- Content of a database file. -/
def dbLookup (fs : FS) (p : String) : Option Store :=
  match fs.dbs.find? (fun q => q.1 = p) with
  | some q => some q.2
  | none => none

/-- `os.path.exists` for a database path. -/
def dbExists (fs : FS) (p : String) : Bool := (dbLookup fs p).isSome

/-- `os.remove` for a database path. -/
def dbRemove (fs : FS) (p : String) : FS :=
  { fs with dbs := fs.dbs.filter (fun q => !(q.1 = p)) }

/-- Create or overwrite a database file. -/
def dbWrite (fs : FS) (p : String) (s : Store) : FS :=
  { fs with dbs := (p, s) :: (dbRemove fs p).dbs }

/-- Content of a text file. -/
def textLookup (fs : FS) (p : String) : Option Text :=
  match fs.texts.find? (fun q => q.1 = p) with
  | some q => some q.2
  | none => none

/-- `os.path.exists` for a text-file path. -/
def textExists (fs : FS) (p : String) : Bool := (textLookup fs p).isSome

/-- Write a text file. -/
def textWrite (fs : FS) (p : String) (t : Text) : FS :=
  { fs with texts := (p, t) :: fs.texts.filter (fun q => !(q.1 = p)) }

/-- Result record of `connect`. -/
structure ConnectOut where
  self : DatabaseManager
  fs : FS
  raised : Option PyErr
  printed : List String
deriving DecidableEq, Repr

/-- `DatabaseManager.connect` (db_manager.py lines 30-54): resolve the
path, open the file (creating it when absent), enable foreign keys. -/
def connect (m : DatabaseManager) (fs : FS) (db_path : Option String) : ConnectOut :=
  let m1 := match db_path with
    | some p => { m with db_path := some p }
    | none => m
  match m1.db_path with
  | none =>
    { self := m1, fs := fs,
      raised := some (.valueError "No database path specified"), printed := [] }
  | some p =>
    let sfs : Store × FS :=
      match dbLookup fs p with
      | some s => (s, fs)
      | none => ([], dbWrite fs p [])
    let c1 := { freshConn sfs.1 with fkEnabled := true }
    { self := { m1 with conn := some c1 }, fs := sfs.2, raised := none,
      printed := ["Connected to database: " ++ p] }

/-- Result record of `execute_query` and `get_table_schema`. -/
structure ExecOut where
  self : DatabaseManager
  result : Option (List Row)
  raised : Option PyErr
  printed : List String
deriving DecidableEq, Repr

/-- The statement-kind dispatch of `execute_query` (db_manager.py lines
131-132): leading keyword of the trimmed, upper-cased text. -/
def isReadQuery (q : String) : Bool :=
  let u := (wsTrim q.toList).map Char.toUpper
  isStart "SELECT".toList u || isStart "PRAGMA".toList u

/-- `DatabaseManager.execute_query` (db_manager.py lines 110-140). -/
def execute_query (m : DatabaseManager) (query : String) (params : List SqlValue) : ExecOut :=
  match m.conn with
  | none =>
    { self := m, result := none,
      raised := some (.runtimeError "Not connected to a database"), printed := [] }
  | some c =>
    match cursor_execute c query.toList params with
    | .error e =>
      { self := m, result := none, raised := none, printed := ["SQL Error: " ++ e] }
    | .ok (c2, rows) =>
      if isReadQuery query then
        { self := { m with conn := some c2 }, result := some rows,
          raised := none, printed := [] }
      else
        { self := { m with conn := some (conn_commit c2) }, result := none,
          raised := none, printed := [] }

/-- Result record of `execute_schema_file`. -/
structure SchemaOut where
  self : DatabaseManager
  raised : Option PyErr
  warnings : List String
  printed : List String
deriving DecidableEq, Repr

/-- The fallback candidates (db_manager.py line 99): split the raw text on
every semicolon, strip each piece, drop the empty ones. -/
def pyCandidates (text : Text) : List Text :=
  ((splitChar ';' text).map wsTrim).filter (fun t => !(t = []))

/-- The fallback loop (db_manager.py lines 100-106): run every candidate
independently; a failing candidate is recorded as a warning unless it
starts with the comment marker, and the loop always continues. -/
def fallbackRun (c : Conn) : List Text → Conn × List String
  | [] => (c, [])
  | st :: r =>
    match cursor_execute c st [] with
    | .ok (c2, _) => fallbackRun c2 r
    | .error e =>
      let cw := fallbackRun c r
      (cw.1, (if isStart "--".toList st then cw.2 else ("Warning: " ++ e) :: cw.2))

/-- `DatabaseManager.execute_schema_file` (db_manager.py lines 81-108):
atomic `executescript` first; on failure, the per-statement fallback, then
commit and report success either way. -/
def execute_schema_file (m : DatabaseManager) (fs : FS) (schema_file : String) : SchemaOut :=
  match textLookup fs schema_file with
  | none =>
    { self := m, raised := some (.ioError "No such file or directory"),
      warnings := [], printed := [] }
  | some schema_sql =>
    match m.conn with
    | none =>
      { self := m,
        raised := some (.runtimeError "NoneType object has no executescript"),
        warnings := [], printed := [] }
    | some c =>
      match executescript c schema_sql with
      | (c1, none) =>
        { self := { m with conn := some (conn_commit c1) }, raised := none,
          warnings := [], printed := ["Schema loaded from: " ++ schema_file] }
      | (c1, some e) =>
        let cw := fallbackRun c1 (pyCandidates schema_sql)
        { self := { m with conn := some (conn_commit cw.1) }, raised := none,
          warnings := cw.2,
          printed := ["Error loading schema: " ++ e, "Schema loaded from: " ++ schema_file] }

/-- Result record of `get_tables`. -/
structure TablesOut where
  self : DatabaseManager
  names : List Text
  raised : Option PyErr
  printed : List String
deriving DecidableEq, Repr

/-- `row[key]` on a result row. -/
def rowGet (r : Row) (k : Text) : Option SqlValue :=
  match r.find? (fun p => p.1 = k) with
  | some p => some p.2
  | none => none

/-- `DatabaseManager.get_tables` (db_manager.py lines 142-146). -/
def get_tables (m : DatabaseManager) : TablesOut :=
  let out := execute_query m masterQuery []
  match out.raised with
  | some e => { self := out.self, names := [], raised := some e, printed := out.printed }
  | none =>
    let names := match out.result with
      | some rows =>
        rows.filterMap (fun r =>
          match rowGet r "name".toList with
          | some (.text n) => some n
          | _ => none)
      | none => []
    { self := out.self, names := names, raised := none, printed := out.printed }

/-- The statement text `get_table_schema` builds by f-string interpolation
(db_manager.py line 150): the table name goes into the text itself. -/
def get_table_schema_query (table_name : String) : String :=
  "PRAGMA table_info(" ++ table_name ++ ")"

/-- `DatabaseManager.get_table_schema` (db_manager.py lines 148-151). -/
def get_table_schema (m : DatabaseManager) (table_name : String) : ExecOut :=
  execute_query m (get_table_schema_query table_name) []

/-- Result record of `export_to_sql`. -/
structure ExportOut where
  self : DatabaseManager
  fs : FS
  raised : Option PyErr
  printed : List String
deriving DecidableEq, Repr

/-- The text `export_to_sql` writes: every dump line plus a newline. -/
def dumpText (c : Conn) : Text :=
  ((iterdump c).map (fun l => l ++ ['\n'])).flatten

/-- `DatabaseManager.export_to_sql` (db_manager.py lines 153-167). -/
def export_to_sql (m : DatabaseManager) (fs : FS) (output_file : String) : ExportOut :=
  match m.conn with
  | none =>
    { self := m, fs := fs,
      raised := some (.runtimeError "Not connected to a database"), printed := [] }
  | some c =>
    if c.closed then
      { self := m, fs := fs,
        raised := some (.sqlError "Cannot operate on a closed database"), printed := [] }
    else
      { self := m, fs := textWrite fs output_file (dumpText c), raised := none,
        printed := ["Database exported to: " ++ output_file] }

/-- Result record of `import_from_sql`. -/
structure ImportOut where
  self : DatabaseManager
  raised : Option PyErr
  printed : List String
deriving DecidableEq, Repr

/-- `DatabaseManager.import_from_sql` (db_manager.py lines 169-184): read
the file, one atomic `executescript`, commit; no handler around it, so a
script error propagates to the caller with the partial state kept. -/
def import_from_sql (m : DatabaseManager) (fs : FS) (sql_file : String) : ImportOut :=
  match m.conn with
  | none =>
    { self := m, raised := some (.runtimeError "Not connected to a database"),
      printed := [] }
  | some c =>
    match textLookup fs sql_file with
    | none =>
      { self := m, raised := some (.ioError "No such file or directory"), printed := [] }
    | some sql_script =>
      match executescript c sql_script with
      | (c1, some e) =>
        { self := { m with conn := some c1 }, raised := some (.sqlError e), printed := [] }
      | (c1, none) =>
        { self := { m with conn := some (conn_commit c1) }, raised := none,
          printed := ["SQL file imported: " ++ sql_file] }

/-- Result record of `close`. -/
structure CloseOut where
  self : DatabaseManager
  printed : List String
deriving DecidableEq, Repr

/-- `DatabaseManager.close` (db_manager.py lines 212-216): closes the live
connection but leaves `self.conn` set (the object is not cleared). -/
def close (m : DatabaseManager) : CloseOut :=
  match m.conn with
  | none => { self := m, printed := [] }
  | some c =>
    { self := { m with conn := some { c with closed := true } },
      printed := ["Database connection closed"] }

/-- Result record of `create_database`. -/
structure CreateOut where
  ret : Option DatabaseManager
  self : DatabaseManager
  fs : FS
  raised : Option PyErr
  printed : List String
deriving DecidableEq, Repr

/-- The tail of `create_database` after the overwrite question: connect,
then load the schema file when one was supplied and exists. -/
def createConnectPhase (m1 : DatabaseManager) (fs1 : FS) (db_path : String)
    (schema_file : Option String) : CreateOut :=
  let co := connect m1 fs1 (some db_path)
  match schema_file with
  | some sf =>
    if textExists co.fs sf then
      let so := execute_schema_file co.self co.fs sf
      { ret := if so.raised = none then some so.self else none, self := so.self,
        fs := co.fs, raised := so.raised,
        printed := co.printed ++ so.printed ++ ["Database created: " ++ db_path] }
    else
      { ret := some co.self, self := co.self, fs := co.fs, raised := none,
        printed := co.printed ++ ["Database created: " ++ db_path] }
  | none =>
    { ret := some co.self, self := co.self, fs := co.fs, raised := none,
      printed := co.printed ++ ["Database created: " ++ db_path] }

/-- `DatabaseManager.create_database` (db_manager.py lines 56-79): sets
`self.db_path`, and when a file already exists at the path asks on stdin
whether to overwrite; any answer other than `yes` (case-insensitively)
cancels, otherwise the file is removed and the path opened fresh. -/
def create_database (m : DatabaseManager) (fs : FS) (db_path : String)
    (schema_file : Option String) (stdin : List String) : CreateOut :=
  let m1 := { m with db_path := some db_path }
  if dbExists fs db_path then
    let response := stdin.headD ""
    if !(pyLower response.toList = "yes".toList) then
      { ret := none, self := m1, fs := fs, raised := none,
        printed := ["Operation cancelled."] }
    else
      createConnectPhase m1 (dbRemove fs db_path) db_path schema_file
  else
    createConnectPhase m1 fs db_path schema_file

/-- The connection a manager holds (a fresh empty one when absent); used
only to phrase observations about a manager's store. -/
def connOf (m : DatabaseManager) : Conn := m.conn.getD (freshConn [])

/-- All candidates succeed when executed in sequence through
`cursor.execute`; returns the final connection. -/
def runFallbackOk (c : Conn) : List Text → Option Conn
  | [] => some c
  | st :: r =>
    match cursor_execute c st [] with
    | .ok (c2, _) => runFallbackOk c2 r
    | .error _ => none

/-- Modelled from the spec's words for the fallback loop of claim C5: a
candidate beginning with the comment marker is skipped without being
executed or treated as an error; any other failing candidate is recorded
as a warning and the loop continues.  This definition follows the claim,
not the code; it exists to exhibit where the code diverges from it. -/
def fallbackSpecRun (c : Conn) : List Text → Conn × List String
  | [] => (c, [])
  | st :: r =>
    if isStart "--".toList st then fallbackSpecRun c r
    else
      match cursor_execute c st [] with
      | .ok (c2, _) => fallbackSpecRun c2 r
      | .error e =>
        let cw := fallbackSpecRun c r
        (cw.1, ("Warning: " ++ e) :: cw.2)

/-- Substring occurrence. -/
def occursIn (pat : Text) : Text → Bool
  | [] => pat.isEmpty
  | c :: r => isStart pat (c :: r) || occursIn pat r

/-- Well-formedness of one named table: a valid identifier naming it,
nonempty valid column names, and rows of matching width. -/
def TableWF (p : Text × Table) : Prop :=
  validIdent p.1 = true ∧ p.2.cols ≠ [] ∧ p.2.cols.all validIdent = true ∧
    ∀ r ∈ p.2.rows, r.length = p.2.cols.length

/-- Well-formedness of a store: distinct table names, each table
well-formed.  Every store reachable from the empty one is well-formed. -/
def StoreWF (s : Store) : Prop :=
  (tableNames s).Nodup ∧ ∀ p ∈ s, TableWF p

/-- Only a CREATE TABLE statement carries proof obligations into the store
invariant. -/
def StmtOK (st : Stmt) : Prop :=
  ∀ n cols, st = .createTable n cols →
    validIdent n = true ∧ cols ≠ [] ∧ cols.all validIdent = true

/-- An empty filesystem. -/
def fs0 : FS := { dbs := [], texts := [] }

/-- A manager connected to a fresh database. -/
def exConnected : DatabaseManager := (connect initDBM fs0 (some "/tmp/t.db")).self

/-- The same manager after `close()`. -/
def exClosed : DatabaseManager := (close exConnected).self

/-- A script whose atomic run fails and whose third candidate starts with
the comment marker but carries a real statement on its second line. -/
def exC5script : Text :=
  ("CREATE TABLE t(a);INSERT INTO x VALUES(1);--c\nDROP TABLE t;").toList

/-- A filesystem holding that script. -/
def exC5fs : FS := { dbs := [], texts := [("s.sql", exC5script)] }

/-- A well-formed script whose atomic run succeeds. -/
def exC2script : Text := ("CREATE TABLE t(a);INSERT INTO t VALUES(1);").toList

/-- The connection its atomic run produces. -/
def exC2conn : Conn := (executescript ⟨[], [], true, false⟩ exC2script).1

/-- The C2 pipeline on that script: connect, load, export, reconnect,
reload. -/
def exC2co1 : ConnectOut := connect initDBM ⟨[], [("s.sql", exC2script)]⟩ (some "a.db")

def exC2so1 : SchemaOut := execute_schema_file exC2co1.self exC2co1.fs "s.sql"

def exC2eo : ExportOut := export_to_sql exC2so1.self exC2co1.fs "o.sql"

def exC2co2 : ConnectOut := connect initDBM exC2eo.fs (some "b.db")

def exC2so2 : SchemaOut := execute_schema_file exC2co2.self exC2co2.fs "o.sql"

/-- A filesystem whose database file "a.db" already exists. -/
def exC4fs : FS := { dbs := [("a.db", [])], texts := [] }

/-- A script with exactly one malformed statement among two valid ones. -/
def exC5bscript : Text := ("BROKEN;CREATE TABLE t(a);INSERT INTO t VALUES(1);").toList

/-- A filesystem holding that script. -/
def exC5bfs : FS := { dbs := [], texts := [("b.sql", exC5bscript)] }

/-- The connection the fallback pass over that script ends with. -/
def exC5bcfin : Conn :=
  ⟨[("t".toList, ⟨["a".toList], [[SqlValue.int 1]]⟩)], [], true, false⟩

/-- A connection holding an empty `users` table with one column. -/
def exC1conn : Conn := ⟨[("users".toList, ⟨["name".toList], []⟩)], [], true, false⟩

/-- The classic injection payload, as a bound text value. -/
def exC1payload : SqlValue := .text ("x'); DROP TABLE users; --").toList

/-! Helper lemmas about the text utilities. -/

theorem isStart_self (p x : Text) : isStart p (p ++ x) = true := by
  induction p with
  | nil => rfl
  | cons c ps ih => simp [isStart, ih]

theorem isStart_of_append_eq {p x r : Text} (h : p ++ x = r) : isStart p r = true := by
  subst h; exact isStart_self p x

theorem isStart_both_false {p q : Text} (x : Text)
    (h1 : isStart q p = false) (h2 : isStart p q = false) :
    isStart p (q ++ x) = false := by
  induction p generalizing q with
  | nil => simp [isStart] at h2
  | cons a ps ih =>
    cases q with
    | nil => simp [isStart] at h1
    | cons b qs =>
      simp only [isStart, List.cons_append]
      by_cases hab : a = b
      · subst hab
        simp only [isStart, beq_self_eq_true, Bool.true_and] at h1 h2 ⊢
        simpa using ih h1 h2
      · simp [hab]

theorem isStart_head_ne {t : Text} {c d : Char} {p : Text}
    (h : t.head? = some d) (hne : ¬ c = d) : isStart (c :: p) t = false := by
  cases t with
  | nil => simp at h
  | cons e r =>
    simp only [List.head?_cons, Option.some.injEq] at h
    subst h
    simp [isStart, hne]

theorem headq_append {a : Text} {c : Char} (b : Text) (h : a.head? = some c) :
    (a ++ b).head? = some c := by
  cases a with
  | nil => simp at h
  | cons e r => simpa using h

theorem lastq_append {b : Text} {c : Char} (a : Text) (h : b.getLast? = some c) :
    (a ++ b).getLast? = some c := by
  cases b with
  | nil => simp at h
  | cons e r => rw [List.getLast?_append_of_ne_nil] <;> simp [h]

theorem ne_nil_of_headq {t : Text} {c : Char} (h : t.head? = some c) : t ≠ [] := by
  cases t <;> simp_all

theorem afterStart_append (p x : Text) : afterStart p (p ++ x) = x := by
  simp [afterStart, List.drop_left]

theorem dropWhile_eq_self_head {p : Char → Bool} {t : Text}
    (h : ∀ c, t.head? = some c → p c = false) : t.dropWhile p = t := by
  cases t with
  | nil => rfl
  | cons c r => simp [List.dropWhile_cons, h c rfl]

theorem wsTrim_eq_self {t : Text}
    (h1 : ∀ c, t.head? = some c → c.isWhitespace = false)
    (h2 : ∀ c, t.getLast? = some c → c.isWhitespace = false) : wsTrim t = t := by
  unfold wsTrim wsTrimLeft
  rw [dropWhile_eq_self_head h1]
  rw [dropWhile_eq_self_head (by simpa using h2)]
  exact List.reverse_reverse t

theorem wsTrim_cons_ws {c : Char} (h : c.isWhitespace = true) (t : Text) :
    wsTrim (c :: t) = wsTrim t := by
  unfold wsTrim wsTrimLeft
  rw [List.dropWhile_cons_of_pos h]

theorem stripLeadFuel_clean {t : Text} (n : Nat)
    (h : isStart "--".toList (wsTrimLeft t) = false) :
    stripLeadFuel n t = wsTrimLeft t := by
  have h2 : isStart ['-', '-'] (wsTrimLeft t) = false := by
    have he : "--".toList = ['-', '-'] := by decide
    rwa [he] at h
  cases n <;> simp [stripLeadFuel, h, h2]

theorem stripLead_of_clean {t : Text}
    (h : isStart "--".toList (wsTrimLeft t) = false) :
    stripLead t = wsTrimLeft t := stripLeadFuel_clean _ h

theorem cleanup_eq_self {t : Text} {c d : Char}
    (hh : t.head? = some c) (hcw : c.isWhitespace = false) (hcd : ¬ '-' = c)
    (hl : t.getLast? = some d) (hdw : d.isWhitespace = false) :
    stripLead (wsTrim t) = t := by
  have ht : wsTrim t = t :=
    wsTrim_eq_self
      (fun e he => by rw [hh] at he; cases he; exact hcw)
      (fun e he => by rw [hl] at he; cases he; exact hdw)
  rw [ht]
  have hwl : wsTrimLeft t = t :=
    dropWhile_eq_self_head (fun e he => by rw [hh] at he; cases he; exact hcw)
  rw [stripLead_of_clean (by rw [hwl]; exact isStart_head_ne hh hcd), hwl]

/-! Lemmas about the splitters. -/

theorem splitChar_ne_nil (sep : Char) (t : Text) : splitChar sep t ≠ [] := by
  induction t with
  | nil => simp [splitChar]
  | cons c r ih =>
    by_cases h : c = sep
    · simp [splitChar, h]
    · simp only [splitChar, if_neg h]
      cases hs : splitChar sep r with
      | nil => simp [consFirst]
      | cons a b => simp [consFirst]

theorem splitChar_nosep {sep : Char} {a : Text} (h : ∀ c ∈ a, ¬ c = sep) :
    splitChar sep a = [a] := by
  induction a with
  | nil => rfl
  | cons c r ih =>
    have hc : ¬ c = sep := h c (by simp)
    rw [splitChar, if_neg hc, ih (fun d hd => h d (by simp [hd]))]
    rfl

theorem splitChar_append {sep : Char} {a : Text} (b : Text) (h : ∀ c ∈ a, ¬ c = sep) :
    splitChar sep (a ++ sep :: b) = a :: splitChar sep b := by
  induction a with
  | nil => simp [splitChar]
  | cons c r ih =>
    have hc : ¬ c = sep := h c (by simp)
    rw [List.cons_append, splitChar, if_neg hc, ih (fun d hd => h d (by simp [hd]))]
    rfl

theorem splitChar_intercalate {sep : Char} {parts : List Text}
    (hne : parts ≠ []) (h : ∀ p ∈ parts, ∀ c ∈ p, ¬ c = sep) :
    splitChar sep (intercalateText sep parts) = parts := by
  induction parts with
  | nil => exact absurd rfl hne
  | cons p rest ih =>
    cases rest with
    | nil => exact splitChar_nosep (h p (by simp))
    | cons q r2 =>
      have hit : intercalateText sep (p :: q :: r2) = p ++ sep :: intercalateText sep (q :: r2) := rfl
      rw [hit, splitChar_append _ (h p (by simp))]
      rw [ih (List.cons_ne_nil _ _) (fun x hx c hc => h x (by simp [hx]) c hc)]

theorem scanQ_append (a b : Text) (i : Bool) : scanQ (a ++ b) i = scanQ b (scanQ a i) := by
  induction a generalizing i with
  | nil => rfl
  | cons c r ih => simp [scanQ, ih]

theorem noTop_append {sep : Char} {a : Text} (b : Text) (i : Bool)
    (ha : noTop sep a i = true) :
    noTop sep (a ++ b) i = noTop sep b (scanQ a i) := by
  induction a generalizing i with
  | nil => rfl
  | cons c r ih =>
    by_cases hc : (c = sep && !i) = true
    · rw [noTop, if_pos hc] at ha; exact absurd ha (by simp)
    · rw [List.cons_append, noTop, if_neg hc, scanQ]
      rw [noTop, if_neg hc] at ha
      exact ih _ ha

theorem splitTL_nosep {sep : Char} {a : Text} {i : Bool} (h : noTop sep a i = true) :
    splitTL sep i a = [a] := by
  induction a generalizing i with
  | nil => rfl
  | cons c r ih =>
    by_cases hc : (c = sep && !i) = true
    · rw [noTop, if_pos hc] at h; exact absurd h (by simp)
    · rw [splitTL, if_neg hc]
      rw [noTop, if_neg hc] at h
      rw [ih h]
      rfl

theorem splitTL_append {sep : Char} {a : Text} (b : Text) {i : Bool}
    (hn : noTop sep a i = true) (hs : scanQ a i = false) :
    splitTL sep i (a ++ sep :: b) = a :: splitTL sep false b := by
  induction a generalizing i with
  | nil =>
    have hi : i = false := hs
    subst hi
    simp [splitTL]
  | cons c r ih =>
    by_cases hc : (c = sep && !i) = true
    · rw [noTop, if_pos hc] at hn; exact absurd hn (by simp)
    · rw [List.cons_append, splitTL, if_neg hc]
      rw [noTop, if_neg hc] at hn
      rw [scanQ] at hs
      rw [ih hn hs]
      rfl

theorem splitTL_intercalate {sep : Char} {parts : List Text}
    (hne : parts ≠ []) (h : ∀ p ∈ parts, okChunk sep p = true) :
    splitTL sep false (intercalateText sep parts) = parts := by
  induction parts with
  | nil => exact absurd rfl hne
  | cons p rest ih =>
    have hp := h p (by simp)
    rw [okChunk, Bool.and_eq_true] at hp
    obtain ⟨hn, hs⟩ := hp
    cases rest with
    | nil => exact splitTL_nosep hn
    | cons q r2 =>
      have hit : intercalateText sep (p :: q :: r2) = p ++ sep :: intercalateText sep (q :: r2) := rfl
      rw [hit, splitTL_append _ hn (by simpa using hs)]
      rw [ih (List.cons_ne_nil _ _) (fun x hx => h x (by simp [hx]))]

/-! Lemmas about digits and integer printing. -/

theorem charToDigit_digitToChar {d : Nat} (h : d < 10) :
    charToDigit (digitToChar d) = some d := by
  interval_cases d <;> rfl

theorem natDigits_ne_nil (n : Nat) : natDigits n ≠ [] := by
  rw [natDigits]
  split <;> simp

theorem natDigits_digit {n : Nat} {c : Char} (h : c ∈ natDigits n) :
    (charToDigit c).isSome = true := by
  induction n using natDigits.induct with
  | case1 n hn =>
    rw [natDigits, dif_pos hn] at h
    simp only [List.mem_singleton] at h
    subst h
    rw [charToDigit_digitToChar hn]
    rfl
  | case2 n hn ih =>
    rw [natDigits, dif_neg hn] at h
    rcases List.mem_append.mp h with h1 | h1
    · exact ih h1
    · simp only [List.mem_singleton] at h1
      subst h1
      rw [charToDigit_digitToChar (by omega)]
      rfl

theorem foldDigits_append (a b : Text) (acc : Nat) :
    foldDigits acc (a ++ b) =
      match foldDigits acc a with
      | none => none
      | some m => foldDigits m b := by
  induction a generalizing acc with
  | nil => rfl
  | cons c r ih =>
    rw [List.cons_append, foldDigits, foldDigits]
    cases charToDigit c with
    | none => rfl
    | some d => exact ih _

theorem foldDigits_natDigits (n : Nat) :
    ∀ acc, foldDigits acc (natDigits n) = some (acc * 10 ^ (natDigits n).length + n) := by
  induction n using natDigits.induct with
  | case1 n hn =>
    intro acc
    rw [natDigits, dif_pos hn]
    simp [foldDigits, charToDigit_digitToChar hn]
  | case2 n hn ih =>
    intro acc
    rw [natDigits, dif_neg hn]
    rw [foldDigits_append, ih acc]
    have hm : n % 10 < 10 := Nat.mod_lt _ (by omega)
    simp only [foldDigits, charToDigit_digitToChar hm]
    have hlen : (natDigits (n / 10) ++ [digitToChar (n % 10)]).length =
        (natDigits (n / 10)).length + 1 := by simp
    rw [hlen, pow_succ]
    congr 1
    have := Nat.div_add_mod n 10
    ring_nf
    omega

theorem parseNat_natDigits (n : Nat) : parseNat (natDigits n) = some n := by
  have hne := natDigits_ne_nil n
  cases hd : natDigits n with
  | nil => exact absurd hd hne
  | cons c r =>
    have hfd := foldDigits_natDigits n 0
    rw [hd] at hfd
    simp only [Nat.zero_mul, Nat.zero_add] at hfd
    exact hfd

theorem parseIntText_intText (i : Int) : parseIntText (intText i) = some i := by
  by_cases h : i < 0
  · rw [intText, if_pos h, parseIntText, if_pos rfl, parseNat_natDigits]
    exact congrArg some (show -Int.ofNat i.natAbs = i by rw [Int.ofNat_eq_natCast]; omega)
  · rw [intText, if_neg h]
    have hne := natDigits_ne_nil i.natAbs
    cases hd : natDigits i.natAbs with
    | nil => exact absurd hd hne
    | cons c r =>
      have hdig : (charToDigit c).isSome = true := natDigits_digit (by rw [hd]; simp)
      have hcm : ¬ c = '-' := by
        intro hc
        rw [hc] at hdig
        simp [charToDigit] at hdig
      rw [parseIntText, if_neg hcm, ← hd, parseNat_natDigits]
      exact congrArg some (show Int.ofNat i.natAbs = i by rw [Int.ofNat_eq_natCast]; omega)

theorem intText_chars {i : Int} {c : Char} (h : c ∈ intText i) :
    c = '-' ∨ (charToDigit c).isSome = true := by
  rw [intText] at h
  by_cases hi : i < 0
  · rw [if_pos hi] at h
    rcases List.mem_cons.mp h with h1 | h1
    · exact Or.inl h1
    · exact Or.inr (natDigits_digit h1)
  · rw [if_neg hi] at h
    exact Or.inr (natDigits_digit h)

/-! Lemmas about quoting and value printing. -/

theorem unescape_escape (s : Text) : unescapeQuotes (escapeQuotes s) = some s := by
  show unescapeGo false (escapeQuotes s) = some s
  induction s with
  | nil => rfl
  | cons c r ih =>
    by_cases h : c = '\''
    · subst h
      simp [escapeQuotes, unescapeGo, ih]
    · simp [escapeQuotes, unescapeGo, h, ih]

theorem scanQ_escape (s : Text) : scanQ (escapeQuotes s) true = true := by
  induction s with
  | nil => rfl
  | cons c r ih =>
    by_cases h : c = '\''
    · subst h
      simp [escapeQuotes, scanQ, ih]
    · simp [escapeQuotes, scanQ, h, ih]

theorem noTop_escape {sep : Char} (hq : ¬ sep = '\'') (s : Text) :
    noTop sep (escapeQuotes s) true = true := by
  have hqs : ¬ ('\'' = sep) := fun he => hq he.symm
  induction s with
  | nil => rfl
  | cons c r ih =>
    by_cases h : c = '\''
    · subst h
      simp [escapeQuotes, noTop, hqs, ih]
    · simp [escapeQuotes, noTop, h, ih]

theorem plain_okChunk {sep : Char} {t : Text}
    (h : ∀ c ∈ t, ¬ c = '\'' ∧ ¬ c = sep) : okChunk sep t = true := by
  rw [okChunk, Bool.and_eq_true]
  constructor
  · induction t with
    | nil => rfl
    | cons c r ih =>
      obtain ⟨hq, hs⟩ := h c (by simp)
      rw [noTop, if_neg (by simp [hs]), if_neg hq]
      exact ih (fun d hd => h d (by simp [hd]))
  · induction t with
    | nil => rfl
    | cons c r ih =>
      obtain ⟨hq, _⟩ := h c (by simp)
      rw [scanQ, if_neg hq]
      exact ih (fun d hd => h d (by simp [hd]))

theorem okChunk_append {sep : Char} {a b : Text}
    (ha : okChunk sep a = true) (hb : okChunk sep b = true) :
    okChunk sep (a ++ b) = true := by
  rw [okChunk, Bool.and_eq_true] at ha hb ⊢
  obtain ⟨han, has⟩ := ha
  obtain ⟨hbn, hbs⟩ := hb
  have hsa : scanQ a false = false := by simpa using has
  constructor
  · rw [noTop_append _ _ han, hsa]
    exact hbn
  · rw [scanQ_append, hsa]
    exact hbs

theorem text_okChunk {sep : Char} (hq : ¬ sep = '\'') (s : Text) :
    okChunk sep ('\'' :: (escapeQuotes s ++ ['\''])) = true := by
  have hqs : ¬ ('\'' = sep) := fun he => hq he.symm
  rw [okChunk, Bool.and_eq_true]
  constructor
  · simp only [noTop, scanQ]
    simp [hqs]
    rw [noTop_append _ _ (noTop_escape hq s), scanQ_escape]
    simp [noTop, hqs]
  · simp [scanQ, scanQ_append, scanQ_escape]

theorem value_okChunk {sep : Char} (hq : ¬ sep = '\'') (hm : ¬ sep = '-')
    (hN : sep ∉ "NULL".toList) (hd : charToDigit sep = none) (v : SqlValue) :
    okChunk sep (printValue v) = true := by
  cases v with
  | null =>
    refine plain_okChunk (fun c hc => ?_)
    constructor
    · intro he; subst he; revert hc; decide
    · intro he; subst he; exact hN hc
  | int i =>
    refine plain_okChunk (fun c hc => ?_)
    rcases intText_chars hc with h1 | h1
    · subst h1
      exact ⟨by decide, fun he => hm he.symm⟩
    · constructor
      · intro he; subst he; simp [charToDigit] at h1
      · intro he; subst he; rw [hd] at h1; exact absurd h1 (by simp)
  | text s => exact text_okChunk hq s

theorem parseParam_printValue (v : SqlValue) :
    parseParam (printValue v) = some (.lit v) := by
  cases v with
  | null => decide
  | text s =>
    show parseParam ('\'' :: (escapeQuotes s ++ ['\''])) = _
    rw [parseParam]
    rw [if_neg (by intro he; injection he with h1 h2; exact absurd h1 (by decide))]
    rw [if_neg (by
      rw [show "NULL".toList = 'N' :: "ULL".toList from by decide]
      intro he; injection he with h1 h2; exact absurd h1 (by decide))]
    simp [List.getLast?_concat, List.dropLast_concat, unescape_escape]
  | int i =>
    show parseParam (intText i) = _
    have hcons : ∃ c r, intText i = c :: r ∧ (c = '-' ∨ (charToDigit c).isSome = true) := by
      rw [intText]
      by_cases h : i < 0
      · rw [if_pos h]
        exact ⟨'-', _, rfl, Or.inl rfl⟩
      · rw [if_neg h]
        cases hd : natDigits i.natAbs with
        | nil => exact absurd hd (natDigits_ne_nil _)
        | cons c r =>
          exact ⟨c, r, rfl, Or.inr (natDigits_digit (by rw [hd]; simp))⟩
    obtain ⟨c, r, hcr, hc⟩ := hcons
    have hcq : ¬ c = '?' := by
      rcases hc with h1 | h1
      · subst h1; decide
      · intro he; subst he; simp [charToDigit] at h1
    have hcN : ¬ c = 'N' := by
      rcases hc with h1 | h1
      · subst h1; decide
      · intro he; subst he; simp [charToDigit] at h1
    have hcQ : ¬ c = '\'' := by
      rcases hc with h1 | h1
      · subst h1; decide
      · intro he; subst he; simp [charToDigit] at h1
    rw [hcr, parseParam]
    rw [if_neg (by intro he; injection he with h1 h2; exact absurd h1 hcq)]
    rw [if_neg (by
      rw [show "NULL".toList = 'N' :: "ULL".toList from by decide]
      intro he; injection he with h1 h2; exact absurd h1 hcN)]
    simp only [if_neg hcQ]
    rw [← hcr, parseIntText_intText]
    rfl

/-! Identifier-character lemmas. -/

theorem identChar_ne {c : Char} (h : isIdentChar c = true) {d : Char}
    (hd : isIdentChar d = false) : ¬ c = d := by
  intro he
  subst he
  rw [h] at hd
  cases hd

theorem identChar_not_ws {c : Char} (h : isIdentChar c = true) :
    c.isWhitespace = false := by
  have h1 : ¬ c = ' ' := identChar_ne h (by decide)
  have h2 : ¬ c = '\t' := identChar_ne h (by decide)
  have h3 : ¬ c = '\r' := identChar_ne h (by decide)
  have h4 : ¬ c = '\n' := identChar_ne h (by decide)
  simp [Char.isWhitespace, h1, h2, h3, h4]

theorem validIdent_mem {t : Text} (h : validIdent t = true) :
    ∀ c ∈ t, isIdentChar c = true := by
  cases t with
  | nil => cases h
  | cons c r =>
    simp only [validIdent, Bool.and_eq_true] at h
    exact fun d hd => List.all_eq_true.mp h.1.2 d hd

theorem validIdent_ne_nil {t : Text} (h : validIdent t = true) : t ≠ [] := by
  cases t with
  | nil => cases h
  | cons c r => simp

theorem mem_of_headq {t : Text} {c : Char} (h : t.head? = some c) : c ∈ t := by
  cases t with
  | nil => cases h
  | cons d r =>
    simp only [List.head?_cons, Option.some.injEq] at h
    subst h
    simp

theorem mem_of_lastq {t : Text} {c : Char} (h : t.getLast? = some c) : c ∈ t := by
  rcases List.mem_getLast?_eq_getLast (show c ∈ t.getLast? by rw [Option.mem_def]; exact h)
    with ⟨hne, hce⟩
  rw [hce]
  exact List.getLast_mem hne

theorem wsTrim_ident {t : Text} (h : validIdent t = true) : wsTrim t = t := by
  refine wsTrim_eq_self (fun c hc => ?_) (fun c hc => ?_)
  · exact identChar_not_ws (validIdent_mem h c (mem_of_headq hc))
  · exact identChar_not_ws (validIdent_mem h c (mem_of_lastq hc))

/-! Membership and takeWhile lemmas used by the parser round-trips. -/

theorem mem_intercalate {sep : Char} {c : Char} {parts : List Text}
    (h : c ∈ intercalateText sep parts) : c = sep ∨ ∃ p ∈ parts, c ∈ p := by
  induction parts with
  | nil => cases h
  | cons p rest ih =>
    cases rest with
    | nil => exact Or.inr ⟨p, by simp, h⟩
    | cons q r2 =>
      have hi : intercalateText sep (p :: q :: r2) = p ++ sep :: intercalateText sep (q :: r2) := rfl
      rw [hi] at h
      rcases List.mem_append.mp h with h1 | h1
      · exact Or.inr ⟨p, by simp, h1⟩
      · rcases List.mem_cons.mp h1 with h2 | h2
        · exact Or.inl h2
        · rcases ih h2 with h3 | ⟨x, hx, hcx⟩
          · exact Or.inl h3
          · exact Or.inr ⟨x, by simp [hx], hcx⟩

theorem takeWhile_append_stop (p : Char → Bool) (a : Text) (d : Char) (b : Text)
    (ha : ∀ c ∈ a, p c = true) (hd : p d = false) :
    (a ++ d :: b).takeWhile p = a ∧ (a ++ d :: b).dropWhile p = d :: b := by
  induction a with
  | nil => simp [List.takeWhile_cons, List.dropWhile_cons, hd]
  | cons c r ih =>
    have hc : p c = true := ha c (by simp)
    have := ih (fun e he => ha e (by simp [he]))
    simp [List.takeWhile_cons, List.dropWhile_cons, hc, this.1, this.2]

theorem seqOpt_map_some (l : List α) : seqOpt (l.map some) = some l := by
  induction l with
  | nil => rfl
  | cons a r ih => simp [seqOpt, ih]

/-! Round-trips: the parser reads back what the dumper prints. -/

theorem parseCols_intercalate {cols : List Text} (hne : cols ≠ [])
    (hcols : ∀ c ∈ cols, validIdent c = true) :
    parseCols (intercalateText ',' cols) = some cols := by
  unfold parseCols
  rw [splitChar_intercalate hne
    (fun p hp c hc => identChar_ne (validIdent_mem (hcols p hp) c hc) (by decide))]
  have hmap : cols.map wsTrim = cols := by
    calc cols.map wsTrim = cols.map id :=
          List.map_congr_left (fun x hx => wsTrim_ident (hcols x hx))
    _ = cols := List.map_id cols
  rw [hmap, if_pos (List.all_eq_true.mpr hcols)]

theorem parseStmt_printCreate {n : Text} {cols : List Text}
    (hn : validIdent n = true) (hne : cols ≠ [])
    (hcols : ∀ c ∈ cols, validIdent c = true) :
    parseStmt (printStmt (.createTable n cols)) = some (.createTable n cols) := by
  show parseStmt ("CREATE TABLE ".toList ++ (n ++ '(' :: (intercalateText ',' cols ++ [')']))) = _
  rw [parseStmt, if_pos (isStart_self _ _), afterStart_append]
  have hnp : ∀ c ∈ n, ¬ c = '(' :=
    fun c hc => identChar_ne (validIdent_mem hn c hc) (by decide)
  have hip : ∀ c ∈ intercalateText ',' cols ++ [')'], ¬ c = '(' := by
    intro c hc
    rcases List.mem_append.mp hc with h1 | h1
    · rcases mem_intercalate h1 with h2 | ⟨x, hx, hcx⟩
      · subst h2; decide
      · exact identChar_ne (validIdent_mem (hcols x hx) c hcx) (by decide)
    · simp only [List.mem_singleton] at h1
      subst h1; decide
  have hsp : splitChar '(' (n ++ '(' :: (intercalateText ',' cols ++ [')'])) =
      [n, intercalateText ',' cols ++ [')']] := by
    rw [splitChar_append _ hnp, splitChar_nosep hip]
  simp only [parseCreate, hsp, List.getLast?_concat, if_pos rfl, wsTrim_ident hn,
    hn, if_pos rfl, List.dropLast_concat, parseCols_intercalate hne hcols]
  rfl

theorem map_parseParam_printParam (vs : List SqlValue) :
    ((vs.map SqlParam.lit).map printParam).map parseParam = (vs.map SqlParam.lit).map some := by
  induction vs with
  | nil => rfl
  | cons v r ih => simp [printParam, parseParam_printValue, ih]

theorem parseStmt_printInsert {n : Text} {vs : List SqlValue}
    (hn : validIdent n = true) (hvs : vs ≠ []) :
    parseStmt (printStmt (.insertInto n (vs.map .lit))) =
      some (.insertInto n (vs.map .lit)) := by
  show parseStmt ("INSERT INTO ".toList ++ '"' :: (n ++ '"' ::
    (" VALUES(".toList ++ (intercalateText ',' ((vs.map SqlParam.lit).map printParam) ++ [')'])))) = _
  rw [parseStmt,
    if_neg (by rw [isStart_both_false _ (by decide) (by decide)]; simp),
    if_pos (isStart_self _ _),
    afterStart_append]
  have htk := takeWhile_append_stop (fun d => !(d = '"')) n '"'
    (" VALUES(".toList ++ (intercalateText ',' ((vs.map SqlParam.lit).map printParam) ++ [')']))
    (fun c hc => by
      simp only [Bool.not_eq_true']
      exact decide_eq_false (identChar_ne (validIdent_mem hn c hc) (by decide)))
    (by simp)
  simp only [parseInsert]
  simp only [htk.1, htk.2]
  simp only [if_true]
  unfold parseInsertTail
  rw [if_pos (by rw [Bool.and_eq_true]; exact ⟨hn, isStart_self _ _⟩), afterStart_append]
  have hok : ∀ p ∈ (vs.map SqlParam.lit).map printParam, okChunk ',' p = true := by
    intro p hp
    rcases List.mem_map.mp hp with ⟨q, hq, hpq⟩
    rcases List.mem_map.mp hq with ⟨v, _, hqv⟩
    subst hpq
    subst hqv
    exact value_okChunk (by decide) (by decide) (by decide) (by decide) v
  have hpp := map_parseParam_printParam vs
  simp only [List.getLast?_concat, List.dropLast_concat,
    splitTL_intercalate (by simp [hvs]) hok, hpp, seqOpt_map_some]
  simp

theorem parseStmt_begin : parseStmt (printStmt .beginTx) = some .beginTx := by decide

theorem parseStmt_commit : parseStmt (printStmt .commitTx) = some .commitTx := by decide

/-! Order facts about `textLe` and the sorting of names. -/

theorem textLe_total (a b : Text) : textLe a b = true ∨ textLe b a = true := by
  induction a generalizing b with
  | nil => exact Or.inl rfl
  | cons c as ih =>
    cases b with
    | nil => exact Or.inr rfl
    | cons d bs =>
      rcases Nat.lt_trichotomy c.toNat d.toNat with h | h | h
      · exact Or.inl (by rw [textLe, if_pos h])
      · rcases ih bs with h1 | h1
        · refine Or.inl ?_
          rw [textLe, if_neg (by omega), if_neg (by omega)]
          exact h1
        · refine Or.inr ?_
          rw [textLe, if_neg (by omega), if_neg (by omega)]
          exact h1
      · exact Or.inr (by rw [textLe, if_pos h])

theorem textLe_trans {a b c : Text} (h1 : textLe a b = true) (h2 : textLe b c = true) :
    textLe a c = true := by
  induction a generalizing b c with
  | nil => rfl
  | cons x as ih =>
    cases b with
    | nil => cases h1
    | cons y bs =>
      cases c with
      | nil => cases h2
      | cons z cs =>
        rw [textLe] at h1 h2 ⊢
        by_cases hxy : x.toNat < y.toNat
        · by_cases hyz : y.toNat < z.toNat
          · rw [if_pos (by omega)]
          · rw [if_neg hyz] at h2
            by_cases hzy : z.toNat < y.toNat
            · rw [if_pos hzy] at h2; cases h2
            · rw [if_pos (by omega)]
        · rw [if_neg hxy] at h1
          by_cases hyx : y.toNat < x.toNat
          · rw [if_pos hyx] at h1; cases h1
          · rw [if_neg hyx] at h1
            by_cases hyz : y.toNat < z.toNat
            · rw [if_pos (by omega)]
            · rw [if_neg hyz] at h2
              by_cases hzy : z.toNat < y.toNat
              · rw [if_pos hzy] at h2; cases h2
              · rw [if_neg hzy] at h2
                rw [if_neg (by omega), if_neg (by omega)]
                exact ih h1 h2

theorem textLe_antisymm {a b : Text} (h1 : textLe a b = true) (h2 : textLe b a = true) :
    a = b := by
  induction a generalizing b with
  | nil =>
    cases b with
    | nil => rfl
    | cons d bs => cases h2
  | cons c as ih =>
    cases b with
    | nil => cases h1
    | cons d bs =>
      rw [textLe] at h1 h2
      by_cases hcd : c.toNat < d.toNat
      · rw [if_neg (by omega), if_pos hcd] at h2
        cases h2
      · rw [if_neg hcd] at h1
        by_cases hdc : d.toNat < c.toNat
        · rw [if_pos hdc] at h1
          cases h1
        · rw [if_neg hdc] at h1
          rw [if_neg hdc, if_neg hcd] at h2
          have hc : c = d := by
            have hn : c.toNat = d.toNat := by omega
            unfold Char.toNat at hn
            exact Char.eq_of_val_eq (UInt32.toNat.inj hn)
          rw [hc, ih h1 h2]

instance : IsTotal Text nameLe := ⟨textLe_total⟩

instance : IsTrans Text nameLe := ⟨fun _ _ _ => textLe_trans⟩

instance : IsAntisymm Text nameLe := ⟨fun _ _ => textLe_antisymm⟩

instance : IsTotal (Text × Table) pairLe := ⟨fun p q => textLe_total p.1 q.1⟩

instance : IsTrans (Text × Table) pairLe := ⟨fun _ _ _ => textLe_trans⟩

theorem tableNames_orderedInsert (p : Text × Table) (l : Store) :
    tableNames (List.orderedInsert pairLe p l) =
      List.orderedInsert nameLe p.1 (tableNames l) := by
  induction l with
  | nil => rfl
  | cons q r ih =>
    by_cases h : pairLe p q
    · have h2 : nameLe p.1 q.1 := h
      simp only [List.orderedInsert, if_pos h, if_pos h2]
      rfl
    · have h2 : ¬ nameLe p.1 q.1 := h
      simp only [List.orderedInsert, if_neg h, if_neg h2]
      show q.1 :: tableNames (List.orderedInsert pairLe p r) = _
      rw [ih]
      rfl

theorem tableNames_sortByName (s : Store) :
    tableNames (sortByName s) = sortTexts (tableNames s) := by
  induction s with
  | nil => rfl
  | cons p r ih =>
    show tableNames (List.orderedInsert pairLe p (sortByName r)) = _
    rw [tableNames_orderedInsert, ih]
    rfl

theorem sortByName_perm (s : Store) : List.Perm (sortByName s) s :=
  List.perm_insertionSort pairLe s

theorem sortTexts_perm (l : List Text) : List.Perm (sortTexts l) l :=
  List.perm_insertionSort nameLe l

theorem sortTexts_eq_of_perm {l1 l2 : List Text} (h : List.Perm l1 l2) :
    sortTexts l1 = sortTexts l2 := by
  refine List.eq_of_perm_of_sorted ?_ (List.sorted_insertionSort nameLe l1)
    (List.sorted_insertionSort nameLe l2)
  exact ((sortTexts_perm l1).trans h).trans (sortTexts_perm l2).symm

/-! Store lookup lemmas. -/

theorem lookupTable_cons_eq {n m : Text} {t : Table} {r : Store} (h : m = n) :
    lookupTable n ((m, t) :: r) = some t := by
  rw [lookupTable, if_pos h]

theorem lookupTable_cons_ne {n m : Text} {t : Table} {r : Store} (h : ¬ m = n) :
    lookupTable n ((m, t) :: r) = lookupTable n r := by
  rw [lookupTable, if_neg h]

theorem lookupTable_eq_none {n : Text} {s : Store} :
    lookupTable n s = none ↔ ∀ p ∈ s, ¬ p.1 = n := by
  induction s with
  | nil => simp [lookupTable]
  | cons q r ih =>
    cases q with
    | mk m t =>
      by_cases h : m = n
      · rw [lookupTable_cons_eq h]
        constructor
        · intro hc
          cases hc
        · intro ha
          exact ((ha (m, t) (by simp)) h).elim
      · rw [lookupTable_cons_ne h, ih]
        constructor
        · intro ha p hp
          rcases List.mem_cons.mp hp with h1 | h1
          · subst h1
            exact h
          · exact ha p h1
        · intro ha p hp
          exact ha p (by simp [hp])

theorem lookupTable_append_right {pre : Store} {n : Text} {tb : Table}
    (h : ∀ p ∈ pre, ¬ p.1 = n) :
    lookupTable n (pre ++ [(n, tb)]) = some tb := by
  induction pre with
  | nil => exact lookupTable_cons_eq rfl
  | cons q r ih =>
    cases q with
    | mk m t =>
      rw [List.cons_append, lookupTable_cons_ne (h (m, t) (by simp))]
      exact ih (fun p hp => h p (by simp [hp]))

theorem addRowTo_append {pre : Store} {n : Text} {tb : Table} {row : List SqlValue}
    (h : ∀ p ∈ pre, ¬ p.1 = n) :
    addRowTo n row (pre ++ [(n, tb)]) =
      pre ++ [(n, { tb with rows := tb.rows ++ [row] })] := by
  induction pre with
  | nil => simp [addRowTo]
  | cons q r ih =>
    cases q with
    | mk m t =>
      rw [List.cons_append, addRowTo, if_neg (h (m, t) (by simp))]
      rw [List.cons_append, ih (fun p hp => h p (by simp [hp]))]

theorem tableNames_addRowTo (n : Text) (row : List SqlValue) (s : Store) :
    tableNames (addRowTo n row s) = tableNames s := by
  induction s with
  | nil => rfl
  | cons q r ih =>
    cases q with
    | mk m t =>
      by_cases h : m = n
      · rw [addRowTo, if_pos h]
        rfl
      · rw [addRowTo, if_neg h]
        show m :: tableNames (addRowTo n row r) = _
        rw [ih]
        rfl

theorem lookup_addRowTo_self {n : Text} {s : Store} {tb : Table} (row : List SqlValue)
    (h : lookupTable n s = some tb) :
    lookupTable n (addRowTo n row s) = some { tb with rows := tb.rows ++ [row] } := by
  induction s with
  | nil => cases h
  | cons q r ih =>
    cases q with
    | mk m t =>
      by_cases hm : m = n
      · rw [lookupTable_cons_eq hm] at h
        injection h with h
        subst h
        rw [addRowTo, if_pos hm, lookupTable_cons_eq hm]
      · rw [lookupTable_cons_ne hm] at h
        rw [addRowTo, if_neg hm, lookupTable_cons_ne hm]
        exact ih h

theorem lookup_addRowTo_other {nm n : Text} {s : Store} (row : List SqlValue)
    (h : ¬ nm = n) :
    lookupTable nm (addRowTo n row s) = lookupTable nm s := by
  induction s with
  | nil => rfl
  | cons q r ih =>
    cases q with
    | mk m t =>
      by_cases hm : m = n
      · have hmn : ¬ m = nm := fun he => h (by rw [← he, hm])
        rw [addRowTo, if_pos hm, lookupTable_cons_ne hmn, lookupTable_cons_ne hmn]
      · rw [addRowTo, if_neg hm]
        by_cases hmn : m = nm
        · rw [lookupTable_cons_eq hmn, lookupTable_cons_eq hmn]
        · rw [lookupTable_cons_ne hmn, lookupTable_cons_ne hmn]
          exact ih

theorem lookup_of_perm {s1 s2 : Store} (h : List.Perm s1 s2)
    (hn : (tableNames s1).Nodup) (n : Text) :
    lookupTable n s1 = lookupTable n s2 := by
  induction h with
  | nil => rfl
  | cons x hperm ih =>
    cases x with
    | mk m t =>
      by_cases hm : m = n
      · rw [lookupTable_cons_eq hm, lookupTable_cons_eq hm]
      · rw [lookupTable_cons_ne hm, lookupTable_cons_ne hm]
        exact ih (List.Nodup.of_cons hn)
  | swap x y l =>
    cases x with
    | mk mx tx =>
      cases y with
      | mk my ty =>
        by_cases hx : mx = n
        · by_cases hy : my = n
          · exfalso
            have hne := (List.nodup_cons.mp hn).1
            apply hne
            show my ∈ List.map (fun p => p.1) ((mx, tx) :: l)
            rw [List.map_cons, show my = mx from hy.trans hx.symm]
            exact List.mem_cons_self _ _
          · rw [lookupTable_cons_ne hy, lookupTable_cons_eq hx,
              lookupTable_cons_eq hx]
        · by_cases hy : my = n
          · rw [lookupTable_cons_eq hy, lookupTable_cons_ne hx, lookupTable_cons_eq hy]
          · rw [lookupTable_cons_ne hy, lookupTable_cons_ne hx,
              lookupTable_cons_ne hx, lookupTable_cons_ne hy]
  | trans h1 h2 ih1 ih2 =>
    have hn2 := (List.Perm.nodup_iff (h1.map (fun p : Text × Table => p.1))).mp
      (show (List.map (fun p : Text × Table => p.1) _).Nodup from hn)
    rw [ih1 hn, ih2 hn2]

/-! Parser inversion: what a parsed statement can look like. -/

theorem parseCols_some {inner : Text} {cols : List Text} (h : parseCols inner = some cols) :
    cols ≠ [] ∧ ∀ c ∈ cols, validIdent c = true := by
  unfold parseCols at h
  split_ifs at h with ha
  injection h with h
  subst h
  refine ⟨?_, fun c hc => List.all_eq_true.mp ha c hc⟩
  intro he
  exact splitChar_ne_nil ',' inner (List.map_eq_nil_iff.mp he)

theorem parseCreate_inv {r : Text} {st : Stmt} (h : parseCreate r = some st) :
    ∃ n cols, st = .createTable n cols ∧ validIdent n = true ∧ cols ≠ [] ∧
      ∀ c ∈ cols, validIdent c = true := by
  unfold parseCreate at h
  split at h
  · rename_i n rest heq
    split_ifs at h with h1 h2
    rcases hpc : parseCols (List.dropLast rest) with _ | cols
    · rw [hpc] at h
      cases h
    · rw [hpc] at h
      injection h with h
      obtain ⟨hne, hcols⟩ := parseCols_some hpc
      exact ⟨_, _, h.symm, h2, hne, hcols⟩
  · cases h

theorem parseInsertTail_shape {nm rest : Text} {st : Stmt}
    (h : parseInsertTail nm rest = some st) : ∃ n ps, st = .insertInto n ps := by
  unfold parseInsertTail at h
  split_ifs at h with h1 h2
  split at h
  · injection h with h
    exact ⟨_, _, h.symm⟩
  · cases h

theorem parseInsert_shape {r : Text} {st : Stmt} (h : parseInsert r = some st) :
    ∃ n ps, st = .insertInto n ps := by
  unfold parseInsert at h
  split at h
  · cases h
  · split_ifs at h with h1
    · split at h
      · cases h
      · split_ifs at h with h2
        exact parseInsertTail_shape h
    · exact parseInsertTail_shape h

theorem parsePragmaTI_shape {r : Text} {st : Stmt} (h : parsePragmaTI r = some st) :
    ∃ n, st = .pragmaTableInfo n := by
  unfold parsePragmaTI at h
  split_ifs at h with h1 h2
  injection h with h
  exact ⟨_, h.symm⟩

theorem parseStmt_StmtOK {t : Text} {st : Stmt} (h : parseStmt t = some st) : StmtOK st := by
  have hcreate : ∀ n2 cols2, ∀ {n cols}, Stmt.createTable n cols = Stmt.createTable n2 cols2 →
      validIdent n = true → cols ≠ [] → (∀ c ∈ cols, validIdent c = true) →
      validIdent n2 = true ∧ cols2 ≠ [] ∧ cols2.all validIdent = true := by
    intro n2 cols2 n cols he hv hne hcols
    injection he with he1 he2
    subst he1
    subst he2
    exact ⟨hv, hne, List.all_eq_true.mpr hcols⟩
  unfold parseStmt at h
  split_ifs at h with h1 h2 h3 h4 h5 h6 h7 h8 h9 h10 h11
  all_goals first
  | (rcases parseCreate_inv h with ⟨n, cols, hst, hv, hne, hcols⟩
     subst hst
     exact fun n2 cols2 he => hcreate n2 cols2 he hv hne hcols)
  | (rcases parseInsert_shape h with ⟨n, ps, hst⟩
     subst hst
     exact fun n2 cols2 he => by cases he)
  | (rcases parsePragmaTI_shape h with ⟨n, hst⟩
     subst hst
     exact fun n2 cols2 he => by cases he)
  | (injection h with h
     subst h
     exact fun n2 cols2 he => by cases he)

/-! Preservation of the store invariant by statement execution. -/

theorem StoreWF_nil : StoreWF [] :=
  ⟨List.nodup_nil, fun p hp => absurd hp (List.not_mem_nil p)⟩

theorem mem_addRowTo {p : Text × Table} {n : Text} {row : List SqlValue} {s : Store}
    (hmem : p ∈ addRowTo n row s) :
    p ∈ s ∨ ∃ tb, p = (n, { tb with rows := tb.rows ++ [row] }) ∧ (n, tb) ∈ s := by
  induction s with
  | nil => cases hmem
  | cons q r ih =>
    cases q with
    | mk m t =>
      by_cases hm : m = n
      · rw [addRowTo, if_pos hm] at hmem
        rcases List.mem_cons.mp hmem with h1 | h1
        · subst hm
          exact Or.inr ⟨t, h1, by simp⟩
        · exact Or.inl (by simp [h1])
      · rw [addRowTo, if_neg hm] at hmem
        rcases List.mem_cons.mp hmem with h1 | h1
        · exact Or.inl (by simp [h1])
        · rcases ih h1 with h2 | ⟨tb, he, hmem2⟩
          · exact Or.inl (by simp [h2])
          · exact Or.inr ⟨tb, he, by simp [hmem2]⟩

theorem removeTable_sublist (n : Text) (s : Store) :
    List.Sublist (removeTable n s) s := by
  induction s with
  | nil => exact List.Sublist.refl []
  | cons q r ih =>
    cases q with
    | mk m t =>
      by_cases hm : m = n
      · rw [removeTable, if_pos hm]
        exact ih.cons _
      · rw [removeTable, if_neg hm]
        exact ih.cons₂ _

theorem lookup_eq_of_mem {n : Text} {tb : Table} {s : Store}
    (hn : (tableNames s).Nodup) (hmem : (n, tb) ∈ s) :
    lookupTable n s = some tb := by
  induction s with
  | nil => cases hmem
  | cons q r ih =>
    cases q with
    | mk m t =>
      rcases List.mem_cons.mp hmem with h1 | h1
      · injection h1 with h1a h1b
        subst h1a
        subst h1b
        exact lookupTable_cons_eq rfl
      · by_cases hm : m = n
        · exfalso
          have hhead := (List.nodup_cons.mp hn).1
          apply hhead
          show m ∈ List.map (fun p => p.1) r
          rw [hm]
          exact List.mem_map.mpr ⟨(n, tb), h1, rfl⟩
        · rw [lookupTable_cons_ne hm]
          exact ih (List.Nodup.of_cons hn) h1

theorem execStmt_WF {s : Store} {st : Stmt} {s2 : Store} {rows : List Row}
    (hWF : StoreWF s) (hok : StmtOK st) (h : execStmt s st = .ok (s2, rows)) :
    StoreWF s2 := by
  cases st with
  | createTable n cols =>
    simp only [execStmt] at h
    rcases hl : lookupTable n s with _ | tb
    · rw [hl] at h
      injection h with h
      injection h with h1 h2
      subst h1
      obtain ⟨hv, hne, hall⟩ := hok n cols rfl
      constructor
      · show (tableNames (s ++ [(n, { cols := cols, rows := [] })])).Nodup
        have hmap : tableNames (s ++ [(n, { cols := cols, rows := [] })]) =
            tableNames s ++ [n] := by
          show List.map _ (s ++ _) = _
          rw [List.map_append]
          rfl
        rw [hmap]
        rw [List.nodup_append]
        refine ⟨hWF.1, List.nodup_singleton n, fun a ha hb => ?_⟩
        rw [List.mem_singleton] at hb
        subst hb
        rcases List.mem_map.mp ha with ⟨p, hp, hpa⟩
        exact (lookupTable_eq_none.mp hl p hp) hpa
      · intro p hp
        rcases List.mem_append.mp hp with h1 | h1
        · exact hWF.2 p h1
        · rw [List.mem_singleton] at h1
          subst h1
          exact ⟨hv, hne, hall, fun r hr => absurd hr (List.not_mem_nil r)⟩
    · rw [hl] at h
      cases h
  | insertInto n ps =>
    simp only [execStmt] at h
    split at h
    · cases h
    · rename_i vs hv
      split at h
      · cases h
      · rename_i tb hl
        split_ifs at h with ha
        injection h with h
        injection h with h1 h2
        subst h1
        constructor
        · show (tableNames (addRowTo n vs s)).Nodup
          rw [tableNames_addRowTo]
          exact hWF.1
        · intro p hp
          rcases mem_addRowTo hp with h1 | ⟨tb2, he, hmem2⟩
          · exact hWF.2 p h1
          · subst he
            obtain ⟨hv2, hne2, hall2, harr2⟩ := hWF.2 (n, tb2) hmem2
            refine ⟨hv2, hne2, hall2, fun r hr => ?_⟩
            rcases List.mem_append.mp hr with h2 | h2
            · exact harr2 r h2
            · rw [List.mem_singleton] at h2
              subst h2
              have hlk := lookup_eq_of_mem hWF.1 hmem2
              rw [hl] at hlk
              injection hlk with hlk
              subst hlk
              exact ha
  | dropTable n =>
    simp only [execStmt] at h
    rcases hl : lookupTable n s with _ | tb
    · rw [hl] at h
      cases h
    · rw [hl] at h
      injection h with h
      injection h with h1 h2
      subst h1
      have hsub := removeTable_sublist n s
      have hnames : List.Sublist (List.map (fun p : Text × Table => p.1) (removeTable n s))
          (List.map (fun p : Text × Table => p.1) s) := hsub.map (fun p => p.1)
      exact ⟨hnames.nodup hWF.1, fun p hp => hWF.2 p (hsub.subset hp)⟩
  | selectAll n =>
    simp only [execStmt] at h
    rcases hl : lookupTable n s with _ | tb
    · rw [hl] at h
      cases h
    · rw [hl] at h
      injection h with h
      injection h with h1 h2
      subst h1
      exact hWF
  | selectMaster =>
    simp only [execStmt] at h
    injection h with h
    injection h with h1 h2
    subst h1
    exact hWF
  | pragmaTableInfo n =>
    simp only [execStmt] at h
    rcases hl : lookupTable n s with _ | tb <;> rw [hl] at h <;>
      (injection h with h; injection h with h1 h2; subst h1; exact hWF)
  | pragmaForeignKeys =>
    simp only [execStmt] at h
    injection h with h
    injection h with h1 h2
    subst h1
    exact hWF
  | beginTx =>
    simp only [execStmt] at h
    injection h with h
    injection h with h1 h2
    subst h1
    exact hWF
  | commitTx =>
    simp only [execStmt] at h
    injection h with h
    injection h with h1 h2
    subst h1
    exact hWF

theorem bindStmt_StmtOK {st : Stmt} (h : StmtOK st) (vs : List SqlValue) :
    StmtOK (bindStmt st vs) := by
  cases st <;> first
    | exact h
    | exact fun n2 c2 he => by cases he

theorem runCandidate_props {c c2 : Conn} {cand : Text} (h : runCandidate c cand = .ok c2) :
    (StoreWF c.store → StoreWF c2.store) ∧ c2.closed = c.closed ∧
      c2.fkEnabled = c.fkEnabled := by
  unfold runCandidate at h
  split_ifs at h with h1
  · injection h with h
    subst h
    exact ⟨id, rfl, rfl⟩
  · split at h
    · cases h
    · rename_i st hp
      split at h
      · cases h
      · rename_i s2 rows heq
        injection h with h
        subst h
        exact ⟨fun hWF =>
          execStmt_WF hWF (bindStmt_StmtOK (parseStmt_StmtOK hp) _) heq, rfl, rfl⟩

theorem runCandidates_props (c : Conn) (l : List Text) :
    (StoreWF c.store → StoreWF (runCandidates c l).1.store) ∧
      (runCandidates c l).1.closed = c.closed ∧
      (runCandidates c l).1.fkEnabled = c.fkEnabled := by
  induction l generalizing c with
  | nil => exact ⟨id, rfl, rfl⟩
  | cons cand r ih =>
    rcases hrc : runCandidate c cand with e | c2
    · simp [runCandidates, hrc]
    · simp only [runCandidates, hrc]
      obtain ⟨hW, hc, hf⟩ := runCandidate_props hrc
      obtain ⟨hW2, hc2, hf2⟩ := ih c2
      exact ⟨fun h => hW2 (hW h), by rw [hc2, hc], by rw [hf2, hf]⟩

theorem executescript_props (c : Conn) (text : Text) :
    (StoreWF c.store → StoreWF (executescript c text).1.store) ∧
      (executescript c text).1.closed = c.closed ∧
      (executescript c text).1.fkEnabled = c.fkEnabled := by
  unfold executescript
  split_ifs with h1
  · exact ⟨id, rfl, rfl⟩
  · exact runCandidates_props c _

/-! Binding lemmas: a statement without placeholders is unchanged by
binding, and dumped inserts carry only literals. -/

theorem bindParamList_nil {ps : List SqlParam} (h : countHoles ps = 0) :
    bindParamList ps [] = ps := by
  induction ps with
  | nil => rfl
  | cons p r ih =>
    cases p with
    | hole => rw [countHoles] at h; omega
    | lit v =>
      rw [countHoles] at h
      rw [bindParamList, ih h]

theorem bindStmt_noholes {st : Stmt} (h : stmtHoles st = 0) : bindStmt st [] = st := by
  cases st with
  | insertInto n ps =>
    rw [bindStmt, bindParamList_nil h]
  | _ => rfl

theorem countHoles_map_lit (l : List SqlValue) : countHoles (l.map .lit) = 0 := by
  induction l with
  | nil => rfl
  | cons v r ih => rw [List.map_cons, countHoles, ih]

theorem litsOf_map_lit (l : List SqlValue) : litsOf (l.map .lit) = some l := by
  induction l with
  | nil => rfl
  | cons v r ih => rw [List.map_cons, litsOf, ih]; rfl

/-! Executing one printed statement as a script candidate. -/

theorem runCandidate_stmt {c : Conn} {t : Text} {st : Stmt} {s2 : Store} {rows : List Row}
    (hclean : stripLead (wsTrim t) = t)
    (hparse : parseStmt t = some st) (hholes : stmtHoles st = 0)
    (hexec : execStmt c.store st = .ok (s2, rows)) :
    runCandidate c t = .ok { c with store := s2, committed := s2 } := by
  have hne : ¬ t = [] := by
    intro he
    subst he
    rw [show parseStmt ([] : Text) = none from by decide] at hparse
    cases hparse
  have hb : bindStmt st (List.replicate (stmtHoles st) SqlValue.null) = st := by
    rw [hholes]
    exact bindStmt_noholes hholes
  unfold runCandidate
  simp only [hclean, if_neg hne, hparse, hb, hexec]

theorem runCandidate_newline (c : Conn) (t : Text) :
    runCandidate c ('\n' :: t) = runCandidate c t := by
  unfold runCandidate
  rw [wsTrim_cons_ws (by decide)]

theorem runCandidates_lastNL (c : Conn) : runCandidates c [['\n']] = (c, none) := by
  have h : runCandidate c ['\n'] = .ok c := by
    unfold runCandidate
    rw [show stripLead (wsTrim ['\n']) = [] from by decide]
    simp
  simp [runCandidates, h]

/-! The printed statements of a dump survive trimming and comment
stripping unchanged. -/

theorem cleanup_printCreate (n : Text) (cols : List Text) :
    stripLead (wsTrim (printStmt (.createTable n cols))) =
      printStmt (.createTable n cols) := by
  have hh : (printStmt (.createTable n cols)).head? = some 'C' :=
    headq_append _ (by decide)
  have hl : (printStmt (.createTable n cols)).getLast? = some ')' :=
    lastq_append _ (lastq_append _ (lastq_append ['('] (List.getLast?_concat _)))
  exact cleanup_eq_self hh (by decide) (by decide) hl (by decide)

theorem cleanup_printInsert (n : Text) (ps : List SqlParam) :
    stripLead (wsTrim (printStmt (.insertInto n ps))) = printStmt (.insertInto n ps) := by
  have hh : (printStmt (.insertInto n ps)).head? = some 'I' :=
    headq_append _ (by decide)
  have hl : (printStmt (.insertInto n ps)).getLast? = some ')' :=
    lastq_append "INSERT INTO ".toList
      (lastq_append ['"'] (lastq_append n (lastq_append ['"']
        (lastq_append " VALUES(".toList (List.getLast?_concat _)))))
  exact cleanup_eq_self hh (by decide) (by decide) hl (by decide)

theorem cleanup_printBegin :
    stripLead (wsTrim (printStmt .beginTx)) = printStmt .beginTx := by decide

theorem cleanup_printCommit :
    stripLead (wsTrim (printStmt .commitTx)) = printStmt .commitTx := by decide

/-! The printed statements of a dump contain no statement-terminating
semicolon, so the script splitter keeps each on its own. -/

theorem okChunk_intercalate {sep sep2 : Char} (h2 : okChunk sep [sep2] = true)
    {parts : List Text} (h : ∀ p ∈ parts, okChunk sep p = true) :
    okChunk sep (intercalateText sep2 parts) = true := by
  induction parts with
  | nil => rfl
  | cons p rest ih =>
    cases rest with
    | nil => exact h p (by simp)
    | cons q r2 =>
      have hi : intercalateText sep2 (p :: q :: r2) =
          p ++ (sep2 :: intercalateText sep2 (q :: r2)) := rfl
      rw [hi]
      refine okChunk_append (h p (by simp)) ?_
      show okChunk sep ([sep2] ++ intercalateText sep2 (q :: r2)) = true
      exact okChunk_append h2 (ih (fun x hx => h x (by simp [hx])))

theorem okChunk_printCreate (n : Text) (cols : List Text) (hn : validIdent n = true)
    (hcols : ∀ c ∈ cols, validIdent c = true) :
    okChunk ';' (printStmt (.createTable n cols)) = true := by
  refine plain_okChunk (fun c hc => ?_)
  rcases List.mem_append.mp hc with h1 | h1
  · exact (by decide : ∀ x ∈ "CREATE TABLE ".toList, ¬ x = '\'' ∧ ¬ x = ';') c h1
  · rcases List.mem_append.mp h1 with h2 | h2
    · have hic := validIdent_mem hn c h2
      exact ⟨identChar_ne hic (by decide), identChar_ne hic (by decide)⟩
    · rcases List.mem_cons.mp h2 with h3 | h3
      · subst h3
        exact ⟨by decide, by decide⟩
      · rcases List.mem_append.mp h3 with h4 | h4
        · rcases mem_intercalate h4 with h5 | ⟨x, hx, hcx⟩
          · subst h5
            exact ⟨by decide, by decide⟩
          · have hic := validIdent_mem (hcols x hx) c hcx
            exact ⟨identChar_ne hic (by decide), identChar_ne hic (by decide)⟩
        · rw [List.mem_singleton] at h4
          subst h4
          exact ⟨by decide, by decide⟩

theorem okChunk_printInsert (n : Text) (vs : List SqlValue) (hn : validIdent n = true) :
    okChunk ';' (printStmt (.insertInto n (vs.map .lit))) = true := by
  have hInner : okChunk ';' (intercalateText ','
      (((vs.map SqlParam.lit).map printParam))) = true := by
    refine okChunk_intercalate (by decide) (fun p hp => ?_)
    rcases List.mem_map.mp hp with ⟨q, hq, hpq⟩
    rcases List.mem_map.mp hq with ⟨v, _, hqv⟩
    subst hpq
    subst hqv
    exact value_okChunk (by decide) (by decide) (by decide) (by decide) v
  have hplain : okChunk ';' n = true := by
    refine plain_okChunk (fun c hc => ?_)
    have hic := validIdent_mem hn c hc
    exact ⟨identChar_ne hic (by decide), identChar_ne hic (by decide)⟩
  have h6 : okChunk ';' (intercalateText ',' ((vs.map SqlParam.lit).map printParam)
      ++ [')']) = true := okChunk_append hInner (by decide)
  have h5 : okChunk ';' (" VALUES(".toList ++ (intercalateText ','
      ((vs.map SqlParam.lit).map printParam) ++ [')'])) = true :=
    okChunk_append (by decide) h6
  have h4 : okChunk ';' ('"' :: (" VALUES(".toList ++ (intercalateText ','
      ((vs.map SqlParam.lit).map printParam) ++ [')']))) = true :=
    (show okChunk ';' ((['"'] : Text) ++ (" VALUES(".toList ++ (intercalateText ','
      ((vs.map SqlParam.lit).map printParam) ++ [')']))) = true from
      okChunk_append (by decide) h5)
  have h3 : okChunk ';' (n ++ '"' :: (" VALUES(".toList ++ (intercalateText ','
      ((vs.map SqlParam.lit).map printParam) ++ [')']))) = true :=
    okChunk_append hplain h4
  have h2 : okChunk ';' ('"' :: (n ++ '"' :: (" VALUES(".toList ++ (intercalateText ','
      ((vs.map SqlParam.lit).map printParam) ++ [')'])))) = true :=
    (show okChunk ';' ((['"'] : Text) ++ (n ++ '"' :: (" VALUES(".toList ++
      (intercalateText ',' ((vs.map SqlParam.lit).map printParam) ++ [')'])))) = true from
      okChunk_append (by decide) h3)
  exact okChunk_append (by decide) h2

theorem okChunk_printBegin : okChunk ';' (printStmt .beginTx) = true := by decide

theorem okChunk_printCommit : okChunk ';' (printStmt .commitTx) = true := by decide

/-! Splitting a dump text recovers its statements as candidates. -/

theorem splitTL_newline_cons (b : Text) :
    splitTL ';' false ('\n' :: b) = consFirst '\n' (splitTL ';' false b) := by
  rw [splitTL, if_neg (by decide)]
  rfl

theorem splitTL_dumpJoin (chunks : List Text)
    (h : ∀ ch ∈ chunks, okChunk ';' ch = true) :
    splitTL ';' false ((chunks.map (fun ch => ch ++ [';', '\n'])).flatten) =
      match chunks with
      | [] => [[]]
      | c0 :: rest => c0 :: (rest.map (fun ch => '\n' :: ch) ++ [['\n']]) := by
  induction chunks with
  | nil => rfl
  | cons c0 rest ih =>
    have hok := h c0 (by simp)
    rw [okChunk, Bool.and_eq_true] at hok
    have htext : ((c0 :: rest).map (fun ch => ch ++ [';', '\n'])).flatten =
        c0 ++ ';' :: ('\n' :: (rest.map (fun ch => ch ++ [';', '\n'])).flatten) := by
      rw [List.map_cons, List.flatten_cons, List.append_assoc]
      rfl
    rw [htext, splitTL_append _ hok.1 (by simpa using hok.2), splitTL_newline_cons,
      ih (fun x hx => h x (by simp [hx]))]
    cases rest with
    | nil => rfl
    | cons c1 r2 => rfl

/-! Replaying the dumped statements loads exactly the dumped tables. -/

theorem runCands_rows (fk : Bool) (pre : Store) (n : Text) (cols : List Text)
    (acc rows : List (List SqlValue)) (rest : List Text)
    (hn : validIdent n = true) (hpre : ∀ p ∈ pre, ¬ p.1 = n)
    (harity : ∀ r ∈ rows, r.length = cols.length) (hcne : cols ≠ []) :
    runCandidates ⟨pre ++ [(n, ⟨cols, acc⟩)], pre ++ [(n, ⟨cols, acc⟩)], fk, false⟩
        ((rows.map (fun r => '\n' :: printStmt (.insertInto n (r.map .lit)))) ++ rest) =
      runCandidates
        ⟨pre ++ [(n, ⟨cols, acc ++ rows⟩)], pre ++ [(n, ⟨cols, acc ++ rows⟩)], fk, false⟩
        rest := by
  induction rows generalizing acc with
  | nil => simp
  | cons row rs ih =>
    have hrne : row ≠ [] := by
      intro he
      have := harity row (by simp)
      rw [he] at this
      exact hcne (List.eq_nil_of_length_eq_zero this.symm)
    have hexec : execStmt (pre ++ [(n, ⟨cols, acc⟩)]) (.insertInto n (row.map .lit)) =
        .ok (pre ++ [(n, ⟨cols, acc ++ [row]⟩)], []) := by
      simp only [execStmt, litsOf_map_lit, lookupTable_append_right hpre,
        if_pos (harity row (by simp)), addRowTo_append hpre]
    have hstep : runCandidate ⟨pre ++ [(n, ⟨cols, acc⟩)], pre ++ [(n, ⟨cols, acc⟩)], fk, false⟩
        ('\n' :: printStmt (.insertInto n (row.map .lit))) =
        .ok ⟨pre ++ [(n, ⟨cols, acc ++ [row]⟩)], pre ++ [(n, ⟨cols, acc ++ [row]⟩)], fk, false⟩ := by
      rw [runCandidate_newline]
      exact runCandidate_stmt (cleanup_printInsert n _)
        (parseStmt_printInsert hn hrne) (countHoles_map_lit row) hexec
    rw [List.map_cons, List.cons_append]
    show (match runCandidate _ _ with
      | .error e => _
      | .ok c2 => runCandidates c2 _) = _
    rw [hstep]
    show runCandidates _ (rs.map _ ++ rest) = _
    rw [ih (acc ++ [row]) (fun r hr => harity r (by simp [hr]))]
    rw [show (acc ++ [row]) ++ rs = acc ++ (row :: rs) from by
      rw [List.append_assoc]; rfl]

theorem runCands_chunk (fk : Bool) (pre : Store) (n : Text) (tb : Table)
    (rest : List Text) (hWF : TableWF (n, tb)) (hpre : ∀ p ∈ pre, ¬ p.1 = n) :
    runCandidates ⟨pre, pre, fk, false⟩
        (('\n' :: printStmt (.createTable n tb.cols)) ::
          (tb.rows.map (fun r => '\n' :: printStmt (.insertInto n (r.map .lit))) ++ rest)) =
      runCandidates ⟨pre ++ [(n, tb)], pre ++ [(n, tb)], fk, false⟩ rest := by
  obtain ⟨hv, hcne, hcall, harr⟩ := hWF
  have hexec : execStmt pre (.createTable n tb.cols) =
      .ok (pre ++ [(n, ⟨tb.cols, []⟩)], []) := by
    simp only [execStmt, lookupTable_eq_none.mpr hpre]
  have hstep : runCandidate ⟨pre, pre, fk, false⟩ ('\n' :: printStmt (.createTable n tb.cols)) =
      .ok ⟨pre ++ [(n, ⟨tb.cols, []⟩)], pre ++ [(n, ⟨tb.cols, []⟩)], fk, false⟩ := by
    rw [runCandidate_newline]
    exact runCandidate_stmt (cleanup_printCreate n _)
      (parseStmt_printCreate hv hcne (fun c hc => List.all_eq_true.mp hcall c hc))
      rfl hexec
  show (match runCandidate _ _ with
    | .error e => _
    | .ok c2 => runCandidates c2 _) = _
  rw [hstep]
  show runCandidates _ (tb.rows.map _ ++ rest) = _
  rw [runCands_rows fk pre n tb.cols [] tb.rows rest hv hpre harr hcne]
  rfl

theorem runCands_chunks (fk : Bool) (pre : Store) (ts : Store) (rest : List Text)
    (hdisj : ∀ q ∈ ts, ∀ p ∈ pre, ¬ p.1 = q.1)
    (hnd : (tableNames (pre ++ ts)).Nodup)
    (hWF : ∀ p ∈ ts, TableWF p) :
    runCandidates ⟨pre, pre, fk, false⟩
        ((ts.flatMap (fun q => ('\n' :: printStmt (.createTable q.1 q.2.cols)) ::
           q.2.rows.map (fun r => '\n' :: printStmt (.insertInto q.1 (r.map .lit))))) ++ rest) =
      runCandidates ⟨pre ++ ts, pre ++ ts, fk, false⟩ rest := by
  induction ts generalizing pre with
  | nil => simp
  | cons q r ih =>
    cases q with
    | mk n tb =>
      rw [List.flatMap_cons, List.cons_append, List.cons_append, List.append_assoc]
      rw [runCands_chunk fk pre n tb _ (hWF (n, tb) (by simp))
        (fun p hp => hdisj (n, tb) (by simp) p hp)]
      have hdisj2 : ∀ q2 ∈ r, ∀ p ∈ pre ++ [(n, tb)], ¬ p.1 = q2.1 := by
        intro q2 hq2 p hp
        rcases List.mem_append.mp hp with h1 | h1
        · exact hdisj q2 (by simp [hq2]) p h1
        · rw [List.mem_singleton] at h1
          subst h1
          show ¬ n = q2.1
          intro he
          have hmid : (tableNames (pre ++ (n, tb) :: r)).Nodup := hnd
          have : n ∉ tableNames r := by
            have hperm : List.Perm (tableNames (pre ++ (n, tb) :: r))
                (n :: tableNames (pre ++ r)) := by
              show List.Perm (List.map _ (pre ++ (n, tb) :: r)) _
              have h2 : List.Perm (pre ++ (n, tb) :: r) ((n, tb) :: (pre ++ r)) :=
                List.perm_middle
              have h3 := h2.map (fun p : Text × Table => p.1)
              exact h3
            have := (hperm.nodup_iff).mp hmid
            intro hc
            exact (List.nodup_cons.mp this).1
              (by rw [show tableNames (pre ++ r) = tableNames pre ++ tableNames r from
                List.map_append _ _ _]; exact List.mem_append.mpr (Or.inr hc))
          exact this (by rw [he]; exact List.mem_map.mpr ⟨q2, hq2, rfl⟩)
      have hnd2 : (tableNames ((pre ++ [(n, tb)]) ++ r)).Nodup := by
        rw [List.append_assoc]
        exact hnd
      rw [ih (pre ++ [(n, tb)]) hdisj2 hnd2 (fun p hp => hWF p (by simp [hp]))]
      rw [List.append_assoc]
      rfl

theorem dumpCands_eq (ts : Store) :
    ((ts.flatMap (fun q => Stmt.createTable q.1 q.2.cols ::
        q.2.rows.map (fun r => Stmt.insertInto q.1 (r.map .lit)))).map printStmt).map
      (fun pt => '\n' :: pt) =
    ts.flatMap (fun q => ('\n' :: printStmt (.createTable q.1 q.2.cols)) ::
      q.2.rows.map (fun r => '\n' :: printStmt (.insertInto q.1 (r.map .lit)))) := by
  induction ts with
  | nil => rfl
  | cons q r ih =>
    simp only [List.flatMap_cons, List.map_append]
    rw [ih, List.map_cons, List.map_cons, List.map_map, List.map_map]
    rfl

theorem dumpText_eq (c1 : Conn) :
    dumpText c1 =
      (((dumpStmts c1.store).map printStmt).map (fun ch => ch ++ [';', '\n'])).flatten := by
  unfold dumpText iterdump
  rw [List.map_map, List.map_map]
  congr 1
  refine List.map_congr_left (fun st _ => ?_)
  show (printStmt st ++ [';']) ++ ['\n'] = printStmt st ++ [';', '\n']
  rw [List.append_assoc]
  rfl

theorem okChunk_dumpStmts {s : Store} (hWF : StoreWF s) :
    ∀ ch ∈ (dumpStmts s).map printStmt, okChunk ';' ch = true := by
  intro ch hch
  rcases List.mem_map.mp hch with ⟨st, hst, hpr⟩
  subst hpr
  unfold dumpStmts at hst
  rcases List.mem_cons.mp hst with h1 | h1
  · subst h1
    exact okChunk_printBegin
  · rcases List.mem_append.mp h1 with h2 | h2
    · rcases List.mem_flatMap.mp h2 with ⟨q, hq, hst2⟩
      have hqs : q ∈ s := (sortByName_perm s).subset hq
      obtain ⟨hv, hcne, hcall, _⟩ := hWF.2 q hqs
      rcases List.mem_cons.mp hst2 with h3 | h3
      · subst h3
        exact okChunk_printCreate _ _ hv (fun c hc => List.all_eq_true.mp hcall c hc)
      · rcases List.mem_map.mp h3 with ⟨row, _, hr⟩
        subst hr
        exact okChunk_printInsert _ _ hv
    · rw [List.mem_singleton] at h2
      subst h2
      exact okChunk_printCommit

theorem splitTL_dumpJoin_cons (c0 : Text) (rest : List Text)
    (h : ∀ ch ∈ c0 :: rest, okChunk ';' ch = true) :
    splitTL ';' false (((c0 :: rest).map (fun ch => ch ++ [';', '\n'])).flatten) =
      c0 :: (rest.map (fun ch => '\n' :: ch) ++ [['\n']]) :=
  splitTL_dumpJoin (c0 :: rest) h

theorem runCandidates_cons_ok {c c2 : Conn} {cand : Text} (r : List Text)
    (h : runCandidate c cand = .ok c2) :
    runCandidates c (cand :: r) = runCandidates c2 r := by
  simp only [runCandidates, h]

/-- Replaying a dump of a well-formed store into a fresh connection loads
exactly the dumped tables (sorted by name, as `iterdump` emits them) with
no error. -/
theorem executescript_dump {c1 : Conn} (fk0 : Bool) (hWF : StoreWF c1.store) :
    executescript ⟨[], [], fk0, false⟩ (dumpText c1) =
      (⟨sortByName c1.store, sortByName c1.store, fk0, false⟩, none) := by
  have hds : (dumpStmts c1.store).map printStmt =
      printStmt .beginTx ::
        (((sortByName c1.store).flatMap (fun q => Stmt.createTable q.1 q.2.cols ::
          q.2.rows.map (fun r => Stmt.insertInto q.1 (r.map .lit)))).map printStmt ++
          [printStmt .commitTx]) := by
    unfold dumpStmts
    rw [List.map_cons, List.map_append]
    rfl
  have hsplit : splitTL ';' false (dumpText c1) =
      printStmt .beginTx ::
        ((((sortByName c1.store).flatMap (fun q => Stmt.createTable q.1 q.2.cols ::
            q.2.rows.map (fun r => Stmt.insertInto q.1 (r.map .lit)))).map printStmt ++
          [printStmt .commitTx]).map (fun ch => '\n' :: ch) ++ [['\n']]) := by
    rw [dumpText_eq, hds]
    exact splitTL_dumpJoin_cons _ _ (by rw [← hds]; exact okChunk_dumpStmts hWF)
  have hbegin : runCandidate ⟨[], [], fk0, false⟩ (printStmt .beginTx) =
      .ok ⟨[], [], fk0, false⟩ :=
    runCandidate_stmt cleanup_printBegin
      (show parseStmt (printStmt .beginTx) = some .beginTx from by decide) rfl rfl
  show runCandidates ⟨[], [], fk0, false⟩ (splitTL ';' false (dumpText c1)) = _
  rw [hsplit, runCandidates_cons_ok _ hbegin]
  rw [List.map_append, dumpCands_eq]
  rw [show ((sortByName c1.store).flatMap (fun q =>
      ('\n' :: printStmt (.createTable q.1 q.2.cols)) ::
        q.2.rows.map (fun r => '\n' :: printStmt (.insertInto q.1 (r.map .lit)))) ++
      [printStmt .commitTx].map (fun pt => '\n' :: pt)) ++ [['\n']] =
    (sortByName c1.store).flatMap (fun q =>
      ('\n' :: printStmt (.createTable q.1 q.2.cols)) ::
        q.2.rows.map (fun r => '\n' :: printStmt (.insertInto q.1 (r.map .lit)))) ++
      (('\n' :: printStmt .commitTx) :: [['\n']]) from by
    rw [List.append_assoc]
    rfl]
  have hnd : (tableNames (([] : Store) ++ sortByName c1.store)).Nodup := by
    rw [List.nil_append, tableNames_sortByName]
    exact ((sortTexts_perm (tableNames c1.store)).nodup_iff).mpr hWF.1
  rw [runCands_chunks fk0 [] (sortByName c1.store) _
    (fun q _ p hp => absurd hp (List.not_mem_nil p)) hnd
    (fun p hp => hWF.2 p ((sortByName_perm c1.store).subset hp))]
  rw [List.nil_append]
  have hcommit : runCandidate (⟨sortByName c1.store, sortByName c1.store, fk0, false⟩ : Conn)
      ('\n' :: printStmt .commitTx) =
      .ok ⟨sortByName c1.store, sortByName c1.store, fk0, false⟩ := by
    rw [runCandidate_newline]
    exact runCandidate_stmt cleanup_printCommit
      (show parseStmt (printStmt .commitTx) = some .commitTx from by decide) rfl rfl
  rw [runCandidates_cons_ok _ hcommit]
  exact runCandidates_lastNL _

/-! Filesystem lookup lemmas. -/

theorem textLookup_head (dbs : List (String × Store)) (p : String) (t : Text)
    (r : List (String × Text)) :
    textLookup ⟨dbs, (p, t) :: r⟩ p = some t := by
  unfold textLookup
  rw [List.find?_cons_of_pos _ (by simp)]

theorem dbLookup_nil (p : String) (ts : List (String × Text)) :
    dbLookup ⟨[], ts⟩ p = none := rfl

theorem dbLookup_cons_ne {p1 p2 : String} (h : ¬ p1 = p2) (s : Store)
    (r : List (String × Store)) (ts : List (String × Text)) :
    dbLookup ⟨(p1, s) :: r, ts⟩ p2 = dbLookup ⟨r, ts⟩ p2 := by
  unfold dbLookup
  rw [List.find?_cons_of_neg _ (by simp [h])]

/-! Manager-level glue: evaluating `connect` and `get_tables`. -/

theorem connect_fresh {fs : FS} {p : String} (h : dbLookup fs p = none)
    (m : DatabaseManager) :
    connect m fs (some p) =
      { self := { db_path := some p, conn := some ⟨[], [], true, false⟩ },
        fs := dbWrite fs p [], raised := none,
        printed := ["Connected to database: " ++ p] } := by
  unfold connect
  simp only [h]
  rfl

theorem filterMap_names (f : Row → Option Text)
    (hf : ∀ n, f [(("name".toList : Text), SqlValue.text n)] = some n) (l : List Text) :
    (l.map (fun n => [(("name".toList : Text), SqlValue.text n)])).filterMap f = l := by
  induction l with
  | nil => rfl
  | cons n r ih =>
    rw [List.map_cons, List.filterMap_cons_some (hf n), ih]

theorem get_tables_names {m : DatabaseManager} {c : Conn} (hconn : m.conn = some c)
    (hcl : c.closed = false) :
    get_tables m =
      { self := m, names := sortTexts (tableNames c.store),
        raised := none, printed := [] } := by
  obtain ⟨dp, mc⟩ := m
  obtain ⟨s, mm, fk, cl⟩ := c
  simp only at hconn
  subst hconn
  have hcl2 : cl = false := hcl
  subst hcl2
  have hred : get_tables ⟨dp, some ⟨s, mm, fk, false⟩⟩ =
      { self := ⟨dp, some ⟨s, mm, fk, false⟩⟩,
        names := ((sortTexts (tableNames s)).map
            (fun n => [(("name".toList : Text), SqlValue.text n)])).filterMap
          (fun r => match rowGet r "name".toList with
            | some (.text n) => some n
            | _ => none),
        raised := none, printed := [] } := rfl
  rw [hred, filterMap_names _ (fun n => rfl) _]

theorem execute_schema_file_atomic {m : DatabaseManager} {c c1 : Conn} {fs : FS}
    {sf : String} {script : Text}
    (htl : textLookup fs sf = some script)
    (hconn : m.conn = some c)
    (hatomic : executescript c script = (c1, none)) :
    execute_schema_file m fs sf =
      { self := { m with conn := some (conn_commit c1) }, raised := none,
        warnings := [], printed := ["Schema loaded from: " ++ sf] } := by
  unfold execute_schema_file
  rw [htl, hconn]
  show (match executescript c script with
    | (c2, none) => _
    | (c2, some e) => _) = _
  rw [hatomic]

theorem export_to_sql_open {m : DatabaseManager} {c : Conn} {fs : FS} {out : String}
    (hconn : m.conn = some c) (hcl : c.closed = false) :
    export_to_sql m fs out =
      { self := m, fs := textWrite fs out (dumpText c), raised := none,
        printed := ["Database exported to: " ++ out] } := by
  unfold export_to_sql
  rw [hconn]
  show (if c.closed then _ else _) = _
  rw [hcl]
  rfl

/-! The claims. -/

/-- C2: a script whose atomic multi-statement run succeeds, loaded through
`execute_schema_file` into a freshly connected database, then exported with
`export_to_sql` and reloaded through `execute_schema_file` into a second
freshly connected database, reports success both times and yields the same
sorted table list and the same per-table row counts in both databases. -/
theorem C2_export_reload (script : Text) (sf out p1 p2 : String)
    (hne : ¬ p1 = p2) (c1 : Conn)
    (hatomic : executescript ⟨[], [], true, false⟩ script = (c1, none))
    (co1 : ConnectOut) (so1 : SchemaOut) (eo : ExportOut)
    (co2 : ConnectOut) (so2 : SchemaOut)
    (hco1 : co1 = connect initDBM ⟨[], [(sf, script)]⟩ (some p1))
    (hso1 : so1 = execute_schema_file co1.self co1.fs sf)
    (heo : eo = export_to_sql so1.self co1.fs out)
    (hco2 : co2 = connect initDBM eo.fs (some p2))
    (hso2 : so2 = execute_schema_file co2.self co2.fs out) :
    so1.raised = none ∧ so2.raised = none ∧
      (get_tables so1.self).names = (get_tables so2.self).names ∧
      ∀ n, rowCount (connOf so1.self).store n = rowCount (connOf so2.self).store n := by
  subst hco1 hso1 heo hco2 hso2
  have hWFc1 : StoreWF c1.store := by
    have h := (executescript_props ⟨[], [], true, false⟩ script).1
    rw [hatomic] at h
    exact h StoreWF_nil
  have hclosed : c1.closed = false := by
    have h := (executescript_props ⟨[], [], true, false⟩ script).2.1
    rw [hatomic] at h
    exact h
  have hA : execute_schema_file (connect initDBM ⟨[], [(sf, script)]⟩ (some p1)).self
      (connect initDBM ⟨[], [(sf, script)]⟩ (some p1)).fs sf =
      { self := { db_path := some p1, conn := some (conn_commit c1) }, raised := none,
        warnings := [], printed := ["Schema loaded from: " ++ sf] } :=
    execute_schema_file_atomic (textLookup_head _ sf script []) rfl hatomic
  simp only [hA]
  have hB : export_to_sql ({ db_path := some p1, conn := some (conn_commit c1) } :
        DatabaseManager)
      (connect initDBM ⟨[], [(sf, script)]⟩ (some p1)).fs out =
      { self := { db_path := some p1, conn := some (conn_commit c1) },
        fs := textWrite (connect initDBM ⟨[], [(sf, script)]⟩ (some p1)).fs out
          (dumpText (conn_commit c1)),
        raised := none, printed := ["Database exported to: " ++ out] } :=
    export_to_sql_open rfl hclosed
  simp only [hB]
  have hdb2 : dbLookup (textWrite (connect initDBM ⟨[], [(sf, script)]⟩ (some p1)).fs out
      (dumpText (conn_commit c1))) p2 = none := by
    show dbLookup ⟨[(p1, [])], _⟩ p2 = none
    rw [dbLookup_cons_ne hne, dbLookup_nil]
  have hC : connect initDBM (textWrite (connect initDBM ⟨[], [(sf, script)]⟩ (some p1)).fs
        out (dumpText (conn_commit c1))) (some p2) =
      { self := { db_path := some p2, conn := some ⟨[], [], true, false⟩ },
        fs := dbWrite (textWrite (connect initDBM ⟨[], [(sf, script)]⟩ (some p1)).fs
          out (dumpText (conn_commit c1))) p2 [],
        raised := none, printed := ["Connected to database: " ++ p2] } :=
    connect_fresh hdb2 initDBM
  simp only [hC]
  have hexec2 : executescript ⟨[], [], true, false⟩ (dumpText (conn_commit c1)) =
      (⟨sortByName c1.store, sortByName c1.store, true, false⟩, none) :=
    executescript_dump true hWFc1
  have hD : execute_schema_file
      ({ db_path := some p2, conn := some ⟨[], [], true, false⟩ } : DatabaseManager)
      (dbWrite (textWrite (connect initDBM ⟨[], [(sf, script)]⟩ (some p1)).fs
        out (dumpText (conn_commit c1))) p2 []) out =
      { self := ⟨some p2, some ⟨sortByName c1.store, sortByName c1.store, true, false⟩⟩,
        raised := none, warnings := [],
        printed := ["Schema loaded from: " ++ out] } :=
    execute_schema_file_atomic (textLookup_head _ out (dumpText (conn_commit c1)) _)
      rfl hexec2
  simp only [hD]
  refine ⟨trivial, trivial, ?_, ?_⟩
  · rw [get_tables_names (c := conn_commit c1) rfl hclosed,
      get_tables_names
        (c := (⟨sortByName c1.store, sortByName c1.store, true, false⟩ : Conn)) rfl rfl]
    show sortTexts (tableNames c1.store) = sortTexts (tableNames (sortByName c1.store))
    rw [tableNames_sortByName]
    exact (sortTexts_eq_of_perm (sortTexts_perm (tableNames c1.store))).symm
  · intro n
    show rowCount c1.store n = rowCount (sortByName c1.store) n
    unfold rowCount
    rw [lookup_of_perm (sortByName_perm c1.store).symm hWFc1.1 n]

/-- Witness for C2 at a concrete two-statement script. -/
theorem C2_export_reload_witness :
    (¬ "a.db" = "b.db" ∧
      executescript ⟨[], [], true, false⟩ exC2script = (exC2conn, none)) ∧
    (exC2so1.raised = none ∧ exC2so2.raised = none ∧
      (get_tables exC2so1.self).names = (get_tables exC2so2.self).names ∧
      ∀ n, rowCount (connOf exC2so1.self).store n = rowCount (connOf exC2so2.self).store n) :=
  ⟨⟨by decide, by decide⟩,
    C2_export_reload exC2script "s.sql" "o.sql" "a.db" "b.db" (by decide) exC2conn
      (by decide) exC2co1 exC2so1 exC2eo exC2co2 exC2so2 rfl rfl rfl rfl rfl⟩

/-- C6: with a live connection and a successfully executed statement,
`execute_query` dispatches on the leading keyword of the trimmed,
upper-cased text: a SELECT/PRAGMA query returns the fetched rows without
committing, anything else commits and returns no rows. -/
theorem C6_dispatch {m : DatabaseManager} {c c2 : Conn} {rows : List Row}
    (query : String) (params : List SqlValue)
    (hconn : m.conn = some c)
    (hcur : cursor_execute c query.toList params = .ok (c2, rows)) :
    execute_query m query params =
      if isReadQuery query then
        { self := { m with conn := some c2 }, result := some rows,
          raised := none, printed := [] }
      else
        { self := { m with conn := some (conn_commit c2) }, result := none,
          raised := none, printed := [] } := by
  unfold execute_query
  rw [hconn]
  show (match cursor_execute c query.toList params with
    | .error e => _
    | .ok (c2, rows) => _) = _
  rw [hcur]

/-- Witness for C6 at a write statement on a fresh connection. -/
theorem C6_dispatch_witness :
    (exConnected.conn = some ⟨[], [], true, false⟩ ∧
      cursor_execute ⟨[], [], true, false⟩ ("CREATE TABLE t(a)").toList [] =
        .ok (⟨[("t".toList, ⟨["a".toList], []⟩)], [], true, false⟩, [])) ∧
    execute_query exConnected "CREATE TABLE t(a)" [] =
      (if isReadQuery "CREATE TABLE t(a)" then
        { self := { exConnected with
            conn := some (⟨[("t".toList, ⟨["a".toList], []⟩)], [], true, false⟩ : Conn) },
          result := some [], raised := none, printed := [] }
      else
        { self := { exConnected with
            conn := some (conn_commit ⟨[("t".toList, ⟨["a".toList], []⟩)], [], true, false⟩) },
          result := none, raised := none, printed := [] }) :=
  ⟨⟨rfl, rfl⟩, C6_dispatch "CREATE TABLE t(a)" [] rfl rfl⟩

/-- C7: a store-level error inside `execute_query` is caught: the call
returns normally (raises nothing), yields no result, and reports the error
by printing it. -/
theorem C7_error_result {m : DatabaseManager} {c : Conn} {e : String}
    (query : String) (params : List SqlValue)
    (hconn : m.conn = some c)
    (hcur : cursor_execute c query.toList params = .error e) :
    execute_query m query params =
      { self := m, result := none, raised := none,
        printed := ["SQL Error: " ++ e] } := by
  unfold execute_query
  rw [hconn]
  show (match cursor_execute c query.toList params with
    | .error e => _
    | .ok (c2, rows) => _) = _
  rw [hcur]

/-- Witness for C7 at a read of a missing table. -/
theorem C7_error_result_witness :
    (exConnected.conn = some ⟨[], [], true, false⟩ ∧
      cursor_execute ⟨[], [], true, false⟩ ("SELECT * FROM missing").toList [] =
        .error "no such table") ∧
    execute_query exConnected "SELECT * FROM missing" [] =
      { self := exConnected, result := none, raised := none,
        printed := ["SQL Error: " ++ "no such table"] } :=
  ⟨⟨rfl, rfl⟩, C7_error_result "SELECT * FROM missing" [] rfl rfl⟩

/-- C3 counterexample: after `close()` the handle is not treated as
disconnected — `execute_query` raises nothing (in particular not the
RuntimeError of the never-connected case); the closed-database error is
caught by the store-error handler and printed instead. -/
theorem C3_counterexample :
    exClosed.conn = some ⟨[], [], true, true⟩ ∧
    (execute_query exClosed "SELECT * FROM t" []).raised = none ∧
    ¬ (execute_query exClosed "SELECT * FROM t" []).raised =
        some (.runtimeError "Not connected to a database") ∧
    (execute_query exClosed "SELECT * FROM t" []).printed =
      ["SQL Error: Cannot operate on a closed database"] := by decide

/-- C3 (amended): a never-connected manager raises RuntimeError
"Not connected to a database"; a closed one raises nothing — its
store-level closed-database error is caught and printed as an SQL error. -/
theorem C3_not_connected (query : String) (params : List SqlValue)
    (m1 m2 : DatabaseManager) (c : Conn)
    (h1 : m1.conn = none) (h2 : m2.conn = some c) (h3 : c.closed = true) :
    execute_query m1 query params =
      { self := m1, result := none,
        raised := some (.runtimeError "Not connected to a database"), printed := [] } ∧
    execute_query m2 query params =
      { self := m2, result := none, raised := none,
        printed := ["SQL Error: Cannot operate on a closed database"] } := by
  constructor
  · unfold execute_query
    rw [h1]
  · have hcur : cursor_execute c query.toList params =
        .error "Cannot operate on a closed database" := by
      unfold cursor_execute
      rw [h3]
      rfl
    unfold execute_query
    rw [h2]
    show (match cursor_execute c query.toList params with
      | .error e => _
      | .ok (c2, rows) => _) = _
    rw [hcur]
    rfl

/-- Witness for C3 on a never-connected and a closed manager. -/
theorem C3_not_connected_witness :
    (initDBM.conn = none ∧ exClosed.conn = some ⟨[], [], true, true⟩ ∧
      (⟨[], [], true, true⟩ : Conn).closed = true) ∧
    (execute_query initDBM "SELECT * FROM t" [] =
      { self := initDBM, result := none,
        raised := some (.runtimeError "Not connected to a database"), printed := [] } ∧
    execute_query exClosed "SELECT * FROM t" [] =
      { self := exClosed, result := none, raised := none,
        printed := ["SQL Error: Cannot operate on a closed database"] }) :=
  ⟨⟨rfl, rfl, rfl⟩,
    C3_not_connected "SELECT * FROM t" [] initDBM exClosed
      (⟨[], [], true, true⟩ : Conn) rfl rfl rfl⟩

/-- C8: `import_from_sql` on a live connection runs the file as one atomic
`executescript` with no fallback: on success it commits and returns
normally; on failure it raises the script error to the caller and keeps
whatever partial state the atomic run left. -/
theorem C8_import_atomic {m : DatabaseManager} {c : Conn} {fs : FS} {sql_file : String}
    {script : Text} (hconn : m.conn = some c)
    (htl : textLookup fs sql_file = some script) :
    import_from_sql m fs sql_file =
      match executescript c script with
      | (c1, some e) =>
        { self := { m with conn := some c1 }, raised := some (.sqlError e),
          printed := [] }
      | (c1, none) =>
        { self := { m with conn := some (conn_commit c1) }, raised := none,
          printed := ["SQL file imported: " ++ sql_file] } := by
  unfold import_from_sql
  rw [hconn, htl]

/-- Witness for C8 at a script whose atomic run fails. -/
theorem C8_import_atomic_witness :
    (exConnected.conn = some ⟨[], [], true, false⟩ ∧
      textLookup exC5fs "s.sql" = some exC5script) ∧
    import_from_sql exConnected exC5fs "s.sql" =
      (match executescript ⟨[], [], true, false⟩ exC5script with
      | (c1, some e) =>
        { self := { exConnected with conn := some c1 }, raised := some (.sqlError e),
          printed := [] }
      | (c1, none) =>
        { self := { exConnected with conn := some (conn_commit c1) }, raised := none,
          printed := ["SQL file imported: " ++ "s.sql"] }) :=
  ⟨⟨rfl, by decide⟩,
    C8_import_atomic rfl (show textLookup exC5fs "s.sql" = some exC5script from by decide)⟩

/-- C10: when the target file exists and the overwrite question is not
answered yes, `create_database` returns no handle, leaves the filesystem
untouched, keeps the connection as it was, and raises nothing. -/
theorem C10_decline_keeps_state (m : DatabaseManager) (fs : FS) (db_path : String)
    (schema_file : Option String) (stdin : List String)
    (hex : dbExists fs db_path = true)
    (hno : ¬ pyLower (stdin.headD "").toList = "yes".toList) :
    (create_database m fs db_path schema_file stdin).ret = none ∧
    (create_database m fs db_path schema_file stdin).fs = fs ∧
    (create_database m fs db_path schema_file stdin).self.conn = m.conn ∧
    (create_database m fs db_path schema_file stdin).raised = none := by
  have h : create_database m fs db_path schema_file stdin =
      { ret := none, self := { m with db_path := some db_path }, fs := fs,
        raised := none, printed := ["Operation cancelled."] } := by
    simp only [create_database]
    rw [if_pos hex, if_pos (by simpa using hno)]
  rw [h]
  exact ⟨rfl, rfl, rfl, rfl⟩

/-- Witness for C10 at an existing file and the answer "no". -/
theorem C10_decline_keeps_state_witness :
    (dbExists exC4fs "a.db" = true ∧
      ¬ pyLower ((["no"] : List String).headD "").toList = "yes".toList) ∧
    ((create_database initDBM exC4fs "a.db" none ["no"]).ret = none ∧
      (create_database initDBM exC4fs "a.db" none ["no"]).fs = exC4fs ∧
      (create_database initDBM exC4fs "a.db" none ["no"]).self.conn = initDBM.conn ∧
      (create_database initDBM exC4fs "a.db" none ["no"]).raised = none) :=
  ⟨⟨by decide, by decide⟩,
    C10_decline_keeps_state initDBM exC4fs "a.db" none ["no"] (by decide) (by decide)⟩

/-! The fallback loop: a prefix of succeeding candidates runs through
without warnings. -/

theorem fallbackRun_all_ok {c cfin : Conn} {l : List Text}
    (h : runFallbackOk c l = some cfin) : fallbackRun c l = (cfin, []) := by
  induction l generalizing c with
  | nil =>
    injection h with h
    subst h
    rfl
  | cons st r ih =>
    unfold runFallbackOk at h
    split at h
    · rename_i c2 x heq
      simp only [fallbackRun, heq]
      exact ih h
    · cases h

theorem fallbackRun_ok_append {c cpre : Conn} {pre : List Text} (rest : List Text)
    (h : runFallbackOk c pre = some cpre) :
    fallbackRun c (pre ++ rest) = fallbackRun cpre rest := by
  induction pre generalizing c with
  | nil =>
    injection h with h
    subst h
    rfl
  | cons st r ih =>
    unfold runFallbackOk at h
    split at h
    · rename_i c2 x heq
      rw [List.cons_append]
      simp only [fallbackRun, heq]
      exact ih h
    · cases h

/-- C5 counterexample: a failing candidate that begins with the comment
marker is not skipped — its non-comment tail still executes.  On
`exC5script` the code's fallback lets the hidden `DROP TABLE t` run and the
final store is empty, while the fallback the claim describes (skipping
comment candidates outright, `fallbackSpecRun`) keeps table `t`. -/
theorem C5_counterexample :
    tableNames (connOf (execute_schema_file exConnected exC5fs "s.sql").self).store = [] ∧
    tableNames (fallbackSpecRun (executescript ⟨[], [], true, false⟩ exC5script).1
      (pyCandidates exC5script)).1.store = ["t".toList] ∧
    (execute_schema_file exConnected exC5fs "s.sql").raised = none ∧
    (execute_schema_file exConnected exC5fs "s.sql").warnings =
      ["Warning: table already exists", "Warning: no such table"] := by decide

/-- C5 (amended): when the atomic run fails, the fallback executes every
candidate independently — comment-marker candidates included, only their
warnings being suppressed — records one warning per failing non-comment
candidate, commits whatever succeeded and returns success; with exactly one
failing candidate among otherwise-good ones, all the others execute. -/
theorem C5_fallback {m : DatabaseManager} {c c1 cpre cfin : Conn} {fs : FS}
    {sf : String} {script : Text} {e0 e1 : String} {pre post : List Text} {bad : Text}
    (htl : textLookup fs sf = some script)
    (hconn : m.conn = some c)
    (hatomic : executescript c script = (c1, some e0))
    (hsplit : pyCandidates script = pre ++ bad :: post)
    (hpre : runFallbackOk c1 pre = some cpre)
    (hbad : cursor_execute cpre bad [] = .error e1)
    (hpost : runFallbackOk cpre post = some cfin) :
    execute_schema_file m fs sf =
      { self := { m with conn := some (conn_commit cfin) }, raised := none,
        warnings := if isStart "--".toList bad then [] else ["Warning: " ++ e1],
        printed := ["Error loading schema: " ++ e0, "Schema loaded from: " ++ sf] } := by
  have hstep : fallbackRun cpre (bad :: post) =
      (cfin, if isStart "--".toList bad then [] else ["Warning: " ++ e1]) := by
    simp only [fallbackRun, hbad, fallbackRun_all_ok hpost]
  have hfb : fallbackRun c1 (pyCandidates script) =
      (cfin, if isStart "--".toList bad then [] else ["Warning: " ++ e1]) := by
    rw [hsplit, fallbackRun_ok_append _ hpre, hstep]
  unfold execute_schema_file
  rw [htl, hconn]
  show (match executescript c script with
    | (c2, none) => _
    | (c2, some e) => _) = _
  rw [hatomic]
  show ({ self := { m with conn := some (conn_commit (fallbackRun c1 (pyCandidates script)).1) },
          raised := none,
          warnings := (fallbackRun c1 (pyCandidates script)).2,
          printed := ["Error loading schema: " ++ e0, "Schema loaded from: " ++ sf] } :
      SchemaOut) = _
  rw [hfb]

/-- Witness for C5: one malformed statement among two valid ones; the two
valid ones execute and exactly one warning is recorded. -/
theorem C5_fallback_witness :
    (textLookup exC5bfs "b.sql" = some exC5bscript ∧
      exConnected.conn = some ⟨[], [], true, false⟩ ∧
      executescript ⟨[], [], true, false⟩ exC5bscript =
        (⟨[], [], true, false⟩, some "syntax error") ∧
      pyCandidates exC5bscript =
        [] ++ "BROKEN".toList ::
          ["CREATE TABLE t(a)".toList, "INSERT INTO t VALUES(1)".toList] ∧
      runFallbackOk ⟨[], [], true, false⟩ [] = some ⟨[], [], true, false⟩ ∧
      cursor_execute ⟨[], [], true, false⟩ "BROKEN".toList [] = .error "syntax error" ∧
      runFallbackOk ⟨[], [], true, false⟩
        ["CREATE TABLE t(a)".toList, "INSERT INTO t VALUES(1)".toList] =
          some exC5bcfin) ∧
    execute_schema_file exConnected exC5bfs "b.sql" =
      { self := { exConnected with conn := some (conn_commit exC5bcfin) },
        raised := none,
        warnings := if isStart "--".toList "BROKEN".toList then []
          else ["Warning: " ++ "syntax error"],
        printed := ["Error loading schema: " ++ "syntax error",
          "Schema loaded from: " ++ "b.sql"] } :=
  ⟨⟨by decide, rfl, by decide, by decide, rfl, rfl, by decide⟩,
    C5_fallback
      (show textLookup exC5bfs "b.sql" = some exC5bscript from by decide)
      rfl
      (show executescript ⟨[], [], true, false⟩ exC5bscript =
        (⟨[], [], true, false⟩, some "syntax error") from by decide)
      (show pyCandidates exC5bscript =
        [] ++ "BROKEN".toList ::
          ["CREATE TABLE t(a)".toList, "INSERT INTO t VALUES(1)".toList] from by decide)
      rfl
      rfl
      (show runFallbackOk ⟨[], [], true, false⟩
        ["CREATE TABLE t(a)".toList, "INSERT INTO t VALUES(1)".toList] =
          some exC5bcfin from by decide)⟩

/-- C9 counterexample: the claim holds only for well-formed, non-reserved
names.  For the absent malformed name "x y" — and equally for the absent
identifier-shaped but reserved name "order" — `get_table_schema` does not
return an empty sequence: the name is interpolated into the PRAGMA text,
the statement is a syntax error, and the call yields no result with a
printed SQL error. -/
theorem C9_counterexample :
    lookupTable ("x y").toList (connOf exConnected).store = none ∧
    (get_table_schema exConnected "x y").result = none ∧
    ¬ (get_table_schema exConnected "x y").result = some [] ∧
    (get_table_schema exConnected "x y").printed = ["SQL Error: syntax error"] ∧
    lookupTable ("order").toList (connOf exConnected).store = none ∧
    (get_table_schema exConnected "order").result = none ∧
    ¬ (get_table_schema exConnected "order").result = some [] ∧
    (get_table_schema exConnected "order").printed = ["SQL Error: syntax error"] :=
  ⟨by decide, by decide, by decide, by decide, by decide, by decide, by decide, by decide⟩

/-- C9 (amended): for a table name the engine accepts in a name position
(identifier-shaped and not an SQL keyword — `validIdent`) that is absent
from the store, `get_table_schema` returns the empty row list, raises
nothing and prints nothing. -/
theorem C9_missing_table {m : DatabaseManager} {c : Conn} (name : String)
    (hconn : m.conn = some c) (hcl : c.closed = false)
    (hv : validIdent name.toList = true)
    (hmiss : lookupTable name.toList c.store = none) :
    get_table_schema m name =
      { self := { m with conn := some c }, result := some [], raised := none,
        printed := [] } := by
  have hqt : (get_table_schema_query name).toList =
      "PRAGMA table_info(".toList ++ (name.toList ++ [')']) := by
    show ("PRAGMA table_info(" ++ name ++ ")").data = _
    rw [String.data_append, String.data_append, List.append_assoc]
    rfl
  have hhead : (get_table_schema_query name).toList.head? = some 'P' := by
    rw [hqt]
    exact headq_append _ rfl
  have hlast : (get_table_schema_query name).toList.getLast? = some ')' := by
    rw [hqt]
    exact lastq_append _ (lastq_append _ rfl)
  have hclean : stripLead (wsTrim (get_table_schema_query name).toList) =
      (get_table_schema_query name).toList :=
    cleanup_eq_self hhead (by decide) (by decide) hlast (by decide)
  have hqne : (get_table_schema_query name).toList ≠ [] := ne_nil_of_headq hhead
  have hC : isStart "CREATE TABLE ".toList (get_table_schema_query name).toList = false := by
    rw [show "CREATE TABLE ".toList = 'C' :: "REATE TABLE ".toList from by decide]
    exact isStart_head_ne hhead (by decide)
  have hI : isStart "INSERT INTO ".toList (get_table_schema_query name).toList = false := by
    rw [show "INSERT INTO ".toList = 'I' :: "NSERT INTO ".toList from by decide]
    exact isStart_head_ne hhead (by decide)
  have hM : ¬ (get_table_schema_query name).toList = masterQuery.toList := by
    intro he
    rw [he] at hhead
    exact absurd hhead (by decide)
  have hS : isStart "SELECT * FROM ".toList (get_table_schema_query name).toList = false := by
    rw [show "SELECT * FROM ".toList = 'S' :: "ELECT * FROM ".toList from by decide]
    exact isStart_head_ne hhead (by decide)
  have hD : isStart "DROP TABLE ".toList (get_table_schema_query name).toList = false := by
    rw [show "DROP TABLE ".toList = 'D' :: "ROP TABLE ".toList from by decide]
    exact isStart_head_ne hhead (by decide)
  have hP : isStart "PRAGMA table_info(".toList (get_table_schema_query name).toList
      = true := by
    rw [hqt]
    exact isStart_self _ _
  have hpti : parsePragmaTI (name.toList ++ [')']) =
      some (.pragmaTableInfo name.toList) := by
    unfold parsePragmaTI
    rw [if_pos (show (name.toList ++ [')']).getLast? = some ')' from
        lastq_append _ rfl),
      List.dropLast_concat, if_pos hv]
  have hparse : parseStmt (get_table_schema_query name).toList =
      some (.pragmaTableInfo name.toList) := by
    unfold parseStmt
    rw [if_neg (show ¬ isStart "CREATE TABLE ".toList
        (get_table_schema_query name).toList = true from by rw [hC]; decide),
      if_neg (show ¬ isStart "INSERT INTO ".toList
        (get_table_schema_query name).toList = true from by rw [hI]; decide),
      if_neg hM,
      if_neg (show ¬ isStart "SELECT * FROM ".toList
        (get_table_schema_query name).toList = true from by rw [hS]; decide),
      if_neg (show ¬ isStart "DROP TABLE ".toList
        (get_table_schema_query name).toList = true from by rw [hD]; decide),
      if_pos hP, hqt, afterStart_append]
    exact hpti
  have hcur : cursor_execute c (get_table_schema_query name).toList [] =
      .ok (c, []) := by
    have hceta : (⟨c.store, c.committed, c.fkEnabled, false⟩ : Conn) = c := by
      rw [← hcl]
    unfold cursor_execute
    rw [hcl, if_neg (by decide), hclean, if_neg hqne, hparse]
    show (if stmtHoles (Stmt.pragmaTableInfo name.toList) = List.length ([] : List SqlValue)
        then _ else _) = Except.ok (c, [])
    rw [if_pos (show stmtHoles (Stmt.pragmaTableInfo name.toList) =
      List.length ([] : List SqlValue) from rfl)]
    show (match execStmt c.store (bindStmt (Stmt.pragmaTableInfo name.toList) []) with
      | Except.error e => _
      | Except.ok (s2, rows) => _) = Except.ok (c, [])
    rw [show execStmt c.store (bindStmt (.pragmaTableInfo name.toList) []) =
        .ok (c.store, []) from by
      show execStmt c.store (.pragmaTableInfo name.toList) = .ok (c.store, [])
      simp only [execStmt, hmiss]]
    show Except.ok ((⟨c.store, c.committed, c.fkEnabled, false⟩ : Conn), ([] : List Row)) =
      Except.ok (c, [])
    rw [hceta]
  have hread : isReadQuery (get_table_schema_query name) = true := by
    have hw : wsTrim (get_table_schema_query name).toList =
        (get_table_schema_query name).toList :=
      wsTrim_eq_self
        (fun e he => by
          rw [hhead] at he
          injection he with he
          subst he
          decide)
        (fun e he => by
          rw [hlast] at he
          injection he with he
          subst he
          decide)
    show (isStart "SELECT".toList ((wsTrim (get_table_schema_query name).toList).map
        Char.toUpper) ||
      isStart "PRAGMA".toList ((wsTrim (get_table_schema_query name).toList).map
        Char.toUpper)) = true
    rw [hw, hqt, List.map_append,
      show ("PRAGMA table_info(".toList).map Char.toUpper =
        "PRAGMA".toList ++ " TABLE_INFO(".toList from by decide,
      List.append_assoc, isStart_self]
    exact Bool.or_true _
  unfold get_table_schema
  unfold execute_query
  rw [hconn]
  show (match cursor_execute c (get_table_schema_query name).toList [] with
    | .error e => _
    | .ok (c2, rows) => _) = _
  rw [hcur]
  show (if isReadQuery (get_table_schema_query name) then _ else _) = _
  rw [hread]
  rfl

/-- Witness for C9 at the absent name "missing" on a fresh connection. -/
theorem C9_missing_table_witness :
    (exConnected.conn = some ⟨[], [], true, false⟩ ∧
      (⟨[], [], true, false⟩ : Conn).closed = false ∧
      validIdent ("missing").toList = true ∧
      lookupTable ("missing").toList (⟨[], [], true, false⟩ : Conn).store = none) ∧
    get_table_schema exConnected "missing" =
      { self := { exConnected with conn := some ⟨[], [], true, false⟩ },
        result := some [], raised := none, printed := [] } :=
  ⟨⟨rfl, rfl, by decide, rfl⟩,
    C9_missing_table "missing" rfl rfl (by decide) rfl⟩

/-- C1 counterexample: the claim does not hold at every call site —
`get_table_schema` interpolates its argument straight into the statement
text (f-string, db_manager.py line 150), so caller-supplied text reaches
the engine as SQL syntax rather than as a bound value. -/
theorem C1_counterexample :
    occursIn ("x'); DROP TABLE users; --").toList
      (get_table_schema_query "x'); DROP TABLE users; --").toList = true ∧
    ¬ get_table_schema_query "a" = get_table_schema_query "x'); DROP TABLE users; --" := by
  decide

/-- C1 (amended): values passed through `execute_query`'s parameter list
are bound positionally into the placeholder, never into the text: for
every value v — the injection payload included — the insert stores v as
one data value in `users` and leaves the table set unchanged. -/
theorem C1_bound_params {m : DatabaseManager} {c : Conn} {tb : Table}
    (v : SqlValue)
    (hconn : m.conn = some c) (hcl : c.closed = false)
    (hus : lookupTable "users".toList c.store = some tb)
    (hone : tb.cols.length = 1) :
    execute_query m "INSERT INTO users VALUES(?)" [v] =
      { self := { m with conn := some (conn_commit
          { c with store := addRowTo "users".toList [v] c.store }) },
        result := none, raised := none, printed := [] } ∧
    tableNames (addRowTo "users".toList [v] c.store) = tableNames c.store ∧
    lookupTable "users".toList (addRowTo "users".toList [v] c.store) =
      some { tb with rows := tb.rows ++ [[v]] } := by
  refine ⟨?_, tableNames_addRowTo _ _ _, lookup_addRowTo_self _ hus⟩
  have hclean : stripLead (wsTrim ("INSERT INTO users VALUES(?)").toList) =
      ("INSERT INTO users VALUES(?)").toList := by decide
  have hparse : parseStmt ("INSERT INTO users VALUES(?)").toList =
      some (.insertInto "users".toList [SqlParam.hole]) := by decide
  have hexec : execStmt c.store
      (bindStmt (.insertInto "users".toList [SqlParam.hole]) [v]) =
      .ok (addRowTo "users".toList [v] c.store, []) := by
    show execStmt c.store (.insertInto "users".toList [SqlParam.lit v]) = _
    simp only [execStmt]
    rw [show litsOf [SqlParam.lit v] = some [v] from rfl]
    show (match lookupTable "users".toList c.store with
      | none => _
      | some tb => _) = _
    rw [hus]
    show (if List.length [v] = tb.cols.length then _ else _) = _
    rw [if_pos (show List.length [v] = tb.cols.length from by rw [hone]; rfl)]
  have hcur : cursor_execute c ("INSERT INTO users VALUES(?)").toList [v] =
      .ok ({ c with store := addRowTo "users".toList [v] c.store }, []) := by
    unfold cursor_execute
    rw [hcl, if_neg (by decide), hclean,
      if_neg (show ¬ ("INSERT INTO users VALUES(?)").toList = [] from by decide),
      hparse]
    show (if stmtHoles (.insertInto "users".toList [SqlParam.hole]) =
        List.length [v] then _ else _) = _
    rw [if_pos (show stmtHoles (.insertInto "users".toList [SqlParam.hole]) =
      List.length [v] from rfl)]
    show (match execStmt c.store
        (bindStmt (.insertInto "users".toList [SqlParam.hole]) [v]) with
      | Except.error e => _
      | Except.ok (s2, rows) => _) = _
    rw [hexec]
  unfold execute_query
  rw [hconn]
  show (match cursor_execute c ("INSERT INTO users VALUES(?)").toList [v] with
    | .error e => _
    | .ok (c2, rows) => _) = _
  rw [hcur]
  show (if isReadQuery "INSERT INTO users VALUES(?)" then _ else _) = _
  rw [show isReadQuery "INSERT INTO users VALUES(?)" = false from by decide]
  rfl

/-- Witness for C1 at the injection payload itself. -/
theorem C1_bound_params_witness :
    ((⟨none, some exC1conn⟩ : DatabaseManager).conn = some exC1conn ∧
      exC1conn.closed = false ∧
      lookupTable "users".toList exC1conn.store = some ⟨["name".toList], []⟩ ∧
      (⟨["name".toList], ([] : List (List SqlValue))⟩ : Table).cols.length = 1) ∧
    (execute_query ⟨none, some exC1conn⟩ "INSERT INTO users VALUES(?)" [exC1payload] =
      { self := { (⟨none, some exC1conn⟩ : DatabaseManager) with
          conn := some (conn_commit { exC1conn with
            store := addRowTo "users".toList [exC1payload] exC1conn.store }) },
        result := none, raised := none, printed := [] } ∧
    tableNames (addRowTo "users".toList [exC1payload] exC1conn.store) =
      tableNames exC1conn.store ∧
    lookupTable "users".toList (addRowTo "users".toList [exC1payload] exC1conn.store) =
      some { (⟨["name".toList], []⟩ : Table) with rows := [] ++ [[exC1payload]] }) :=
  ⟨⟨rfl, rfl, by decide, rfl⟩,
    C1_bound_params exC1payload rfl rfl
      (show lookupTable "users".toList exC1conn.store =
        some ⟨["name".toList], []⟩ from by decide) rfl⟩

theorem dbLookup_dbRemove (fs : FS) (p : String) : dbLookup (dbRemove fs p) p = none := by
  have h : (fs.dbs.filter (fun q => !(q.1 = p))).find? (fun q => q.1 = p) = none := by
    rw [List.find?_eq_none]
    intro x hx
    have h2 := (List.mem_filter.mp hx).2
    simpa using h2
  unfold dbLookup
  show (match (fs.dbs.filter (fun q => !(q.1 = p))).find? (fun q => q.1 = p) with
    | some q => some q.2
    | none => none) = none
  rw [h]

/-- C4 counterexample: `create_database` exposes no boolean overwrite
parameter — the decision is read interactively from stdin, so identical
call arguments produce different outcomes depending on the interactive
answer. -/
theorem C4_counterexample :
    ¬ (create_database initDBM exC4fs "a.db" none ["yes"]).ret = none ∧
    (create_database initDBM exC4fs "a.db" none ["no"]).ret = none := by decide

/-- C4 (amended): overwriting an existing file is gated on the interactive
stdin answer rather than a boolean parameter: any answer other than yes
(case-insensitively) cancels with the filesystem kept, and only the answer
yes removes the file and reopens it fresh — it never overwrites without
that confirmation. -/
theorem C4_overwrite_gate (m : DatabaseManager) (fs : FS) (db_path : String)
    (stdin : List String) (hex : dbExists fs db_path = true) :
    create_database m fs db_path none stdin =
      if pyLower (stdin.headD "").toList = "yes".toList then
        { ret := some ⟨some db_path, some ⟨[], [], true, false⟩⟩,
          self := ⟨some db_path, some ⟨[], [], true, false⟩⟩,
          fs := dbWrite (dbRemove fs db_path) db_path [], raised := none,
          printed := ["Connected to database: " ++ db_path,
            "Database created: " ++ db_path] }
      else
        { ret := none, self := { m with db_path := some db_path }, fs := fs,
          raised := none, printed := ["Operation cancelled."] } := by
  by_cases hyes : pyLower (stdin.headD "").toList = "yes".toList
  · rw [if_pos hyes]
    simp only [create_database]
    rw [if_pos hex, if_neg (by simpa using hyes)]
    simp only [createConnectPhase, connect_fresh (dbLookup_dbRemove fs db_path)]
    rfl
  · rw [if_neg hyes]
    simp only [create_database]
    rw [if_pos hex, if_pos (by simpa using hyes)]

/-- Witness for C4 at an existing file and the answer "YES". -/
theorem C4_overwrite_gate_witness :
    dbExists exC4fs "a.db" = true ∧
    create_database initDBM exC4fs "a.db" none ["YES"] =
      (if pyLower ((["YES"] : List String).headD "").toList = "yes".toList then
        { ret := some ⟨some "a.db", some ⟨[], [], true, false⟩⟩,
          self := ⟨some "a.db", some ⟨[], [], true, false⟩⟩,
          fs := dbWrite (dbRemove exC4fs "a.db") "a.db" [], raised := none,
          printed := ["Connected to database: " ++ "a.db",
            "Database created: " ++ "a.db"] }
      else
        { ret := none, self := { initDBM with db_path := some "a.db" }, fs := exC4fs,
          raised := none, printed := ["Operation cancelled."] }) :=
  ⟨by decide, C4_overwrite_gate initDBM exC4fs "a.db" ["YES"] (by decide)⟩

end SqlPancake
